import Mathlib

/-!
Verification of the asynchronous quality-assessment pipeline of the
vmaf-video-qctest backend.  The Python sources embedded here are
`app/services/ffmpeg_service.py` (probe, adapter, result parser) and
`app/services/assessment_service.py` (job state machine, statistics,
problem frames, batch orchestration).

Modelling conventions:
* Python strings that are actually parsed character by character are
  modelled as `List Char`; string helpers (`split`, `strip`,
  `startswith`, `int(...)`, `float(...)`) are re-implemented as
  structural recursions matching Python's behaviour on the grammar these
  inputs use.
* Python floats are modelled as `ℚ`.  The one operation that leaves `ℚ`
  is `statistics.stdev` (a square root); it is modelled by its square
  (the sample variance), which carries the same information.
* Database identities (job ids, batch ids), file paths and error
  message texts are modelled as `Nat` tags; their content never matters
  to the pipeline logic.
-/

namespace VQC

/-- Characters of a Python string; string literals enter via `String.toList`. -/
abbrev Chars := List Char

/-- Python `str.split(sep)` for a one-character separator: splits on every
occurrence, keeping empty pieces, so `"a/b/c" ↦ ["a","b","c"]` and
`"/" ↦ ["", ""]`. -/
def splitOnChar (c : Char) : Chars → List Chars
  | [] => [[]]
  | x :: xs =>
    let r := splitOnChar c xs
    if x = c then [] :: r
    else
      match r with
      | h :: t => (x :: h) :: t
      | [] => [[x]]

/-- Python `str.strip()`: drop whitespace from both ends. -/
def pyStrip (l : Chars) : Chars :=
  ((l.dropWhile Char.isWhitespace).reverse.dropWhile Char.isWhitespace).reverse

/-- Value of a digit string; only applied when all characters are digits. -/
def digitsVal (l : Chars) : Nat :=
  l.foldl (fun a c => a * 10 + (c.toNat - 48)) 0

/-- Python `int(s)` on an unsigned digit string: `some` iff the string is a
nonempty run of decimal digits.  (Surrounding whitespace / underscores,
which Python also tolerates, never occur in the inputs modelled here.) -/
def parseDigits (l : Chars) : Option Nat :=
  if l ≠ [] ∧ l.all Char.isDigit then some (digitsVal l) else none

/-- Python `int(s)`: optional sign followed by digits; `none` models the
`ValueError` raised on anything else. -/
def parsePyInt : Chars → Option Int
  | '-' :: r => (parseDigits r).map (fun n => -(n : Int))
  | '+' :: r => (parseDigits r).map (fun n => (n : Int))
  | r => (parseDigits r).map (fun n => (n : Int))

/-- Unsigned decimal literal `digits[.digits]` as a rational. -/
def parseDecimal (l : Chars) : Option ℚ :=
  match splitOnChar '.' l with
  | [a] => (parseDigits a).map (fun n => (n : ℚ))
  | [a, b] =>
    if a = [] ∧ b = [] then none
    else if a.all Char.isDigit ∧ b.all Char.isDigit then
      some ((digitsVal a : ℚ) + (digitsVal b : ℚ) / (10 : ℚ) ^ b.length)
    else none
  | _ => none

/-- Python `float(s)` on the plain decimal grammar ffprobe emits
(`none` models the `ValueError` on an unparseable string). -/
def parsePyFloat : Chars → Option ℚ
  | '-' :: r => (parseDecimal r).map Neg.neg
  | '+' :: r => parseDecimal r
  | r => parseDecimal r

/-- Python `int(x)` on a float: truncation toward zero. -/
def pyTrunc (q : ℚ) : Int :=
  if 0 ≤ q then ⌊q⌋ else ⌈q⌉

/-! ## Probe (`FFmpegService.get_video_info`, ffmpeg_service.py lines 47-108) -/

/-- One entry of the ffprobe `streams` list; field values are kept as the
code reads them (`r_frame_rate` as the raw string, `none` = key absent;
numeric fields already coerced, as their string form is irrelevant to
every claim). -/
structure ProbeStream where
  codec_type : Chars
  width : Int
  height : Int
  r_frame_rate : Option Chars
  nb_frames : Int
  codec_name : Chars
  pix_fmt : Chars
  bit_rate : Int
deriving DecidableEq, Repr

/-- The ffprobe JSON document: `streams` list plus the `format` block's
`duration` and `bit_rate` (0 models the code's defaults for absent keys). -/
structure ProbeData where
  streams : List ProbeStream
  duration : ℚ
  format_bit_rate : Int
deriving DecidableEq, Repr

/-- Result record of `get_video_info`. -/
structure VideoInfo where
  width : Int
  height : Int
  duration : ℚ
  frame_rate : ℚ
  frame_count : Int
  codec : Chars
  bitrate : Int
  pixel_format : Chars
deriving DecidableEq, Repr

/-- Failure modes of `get_video_info`: `noVideoStream` is the explicit
`ValueError("未找到视频流")`, `valueError` an uncaught parse exception. -/
inductive ProbeErr
  | noVideoStream
  | valueError
deriving DecidableEq, Repr

/-- ffmpeg_service.py lines 81-86: parse `r_frame_rate`.  Key absent
defaults the string to `"30/1"`; a fraction with non-positive denominator
yields `30.0`; an unparseable expression raises (`none`). -/
def parseFrameRate (rfr : Option Chars) : Option ℚ :=
  let s := rfr.getD "30/1".toList
  if s.contains '/' then
    match splitOnChar '/' s with
    | [a, b] =>
      match parsePyInt a, parsePyInt b with
      | some num, some den => some (if 0 < den then (num : ℚ) / (den : ℚ) else 30)
      | _, _ => none
    | _ => none
  else
    parsePyFloat s

/-- ffmpeg_service.py lines 68-108: find the first video stream, parse the
frame rate, synthesize the frame count from `duration × frame_rate` when
`nb_frames` is 0, and fall back to the stream bit rate when the container
bit rate is 0. -/
def get_video_info (d : ProbeData) : Except ProbeErr VideoInfo :=
  match d.streams.find? (fun s => s.codec_type = "video".toList) with
  | none => .error .noVideoStream
  | some vs =>
    match parseFrameRate vs.r_frame_rate with
    | none => .error .valueError
    | some frame_rate =>
      let duration := d.duration
      let frame_count : Int :=
        if vs.nb_frames = 0 then pyTrunc (duration * frame_rate) else vs.nb_frames
      let bitrate : Int :=
        if d.format_bit_rate = 0 then vs.bit_rate else d.format_bit_rate
      .ok {
        width := vs.width
        height := vs.height
        duration := duration
        frame_rate := frame_rate
        frame_count := frame_count
        codec := vs.codec_name
        bitrate := bitrate
        pixel_format := vs.pix_fmt }

/-! ## Adapter progress stream (`FFmpegService.assess_quality`,
ffmpeg_service.py lines 202-243) -/

/-- One `progress` event yielded by the generator. -/
structure ProgressEvent where
  current_frame : Int
  total_frames : Int
  progress : ℚ
deriving DecidableEq, Repr

/-- ffmpeg_service.py lines 212-218: strip the line, require the
`frame=` marker, and run `int(...)` on `line.split("=")[1]`; `none`
covers both a non-matching line and the caught `ValueError`/`IndexError`. -/
def parseFrameLine (line : Chars) : Option Int :=
  let s := pyStrip line
  if "frame=".toList.isPrefixOf s then
    (splitOnChar '=' s).getD 1 [] |> parsePyInt
  else none

/-- Python `min(a, b)` (spelled out so that it evaluates by kernel
reduction). -/
def pyMin (a b : ℚ) : ℚ :=
  if a ≤ b then a else b

/-- ffmpeg_service.py line 221: the percentage for one progress event
(`current_frame / total_frames * 100` when `total_frames > 0`, else 0). -/
def rawProgress (tf cf : Int) : ℚ :=
  if 0 < tf then (cf : ℚ) / (tf : ℚ) * 100 else 0

/-- ffmpeg_service.py lines 207-230: the read loop.  `last` is
`last_reported_frame` (initially -1); an event is yielded whenever the
parsed counter differs from `last`, with progress `min(raw, 100)`. -/
def adapterEventsGo (tf : Int) : List Chars → Int → List ProgressEvent
  | [], _ => []
  | l :: ls, last =>
    match parseFrameLine l with
    | some cf =>
      if cf ≠ last then
        { current_frame := cf, total_frames := tf,
          progress := pyMin (rawProgress tf cf) 100 } :: adapterEventsGo tf ls cf
      else adapterEventsGo tf ls last
    | none => adapterEventsGo tf ls last

/-- The full progress-event sequence `assess_quality` yields for a given
list of subprocess output lines, with `total_frames` the reference
video's probed frame count. -/
def adapterEvents (tf : Int) (lines : List Chars) : List ProgressEvent :=
  adapterEventsGo tf lines (-1)

/-! ## Result parser (`FFmpegService._parse_vmaf_json`,
ffmpeg_service.py lines 245-298) -/

/-- One entry of the VMAF JSON `frames` list, reduced to the three keys
the parser reads (`vmaf`, `float_ssim`, `psnr_y`), each independently
absent (`none`). -/
structure VmafFrame where
  frameNum : Int
  vmaf : Option ℚ
  ssim : Option ℚ
  psnr : Option ℚ
deriving DecidableEq, Repr

/-- The `pooled_metrics.vmaf` block (`none` = key absent, defaulted to 0
by the code). -/
structure PooledMetrics where
  vmaf_mean : Option ℚ
  vmaf_min : Option ℚ
  vmaf_max : Option ℚ
deriving DecidableEq, Repr

/-- One record of the persisted per-frame list (`frame_data.json`). -/
structure FrameRecord where
  frame_num : Int
  vmaf : Option ℚ
  ssim : Option ℚ
  psnr : Option ℚ
deriving DecidableEq, Repr

/-- Loop state of the parser: the four lists the Python loop appends to. -/
structure ParseAcc where
  frame_data : List FrameRecord
  vmaf_scores : List ℚ
  ssim_scores : List ℚ
  psnr_scores : List ℚ
deriving DecidableEq, Repr

/-- ffmpeg_service.py lines 259-280: one iteration of the frame loop. -/
def parseStep (acc : ParseAcc) (f : VmafFrame) : ParseAcc :=
  { frame_data := acc.frame_data ++
      [{ frame_num := f.frameNum, vmaf := f.vmaf, ssim := f.ssim, psnr := f.psnr }]
    vmaf_scores := acc.vmaf_scores ++ (match f.vmaf with | some v => [v] | none => [])
    ssim_scores := acc.ssim_scores ++ (match f.ssim with | some v => [v] | none => [])
    psnr_scores := acc.psnr_scores ++ (match f.psnr with | some v => [v] | none => []) }

/-- The accumulated lists after the whole frame loop. -/
def parseFrames (frames : List VmafFrame) : ParseAcc :=
  frames.foldl parseStep ⟨[], [], [], []⟩

/-- Normalized result of `_parse_vmaf_json`. -/
structure QualityResult where
  vmaf_score : ℚ
  vmaf_min : ℚ
  vmaf_max : ℚ
  ssim_score : ℚ
  psnr_score : ℚ
  ms_ssim_score : Option ℚ
  frame_data : List FrameRecord
deriving DecidableEq, Repr

/-- ffmpeg_service.py lines 282-298: pooled VMAF aggregates are read
directly (0 when absent); SSIM/PSNR means are `sum/len` over the
collected per-frame values, 0 when no frame reported the metric. -/
def parse_vmaf_json (frames : List VmafFrame) (pooled : PooledMetrics) : QualityResult :=
  let acc := parseFrames frames
  { vmaf_score := pooled.vmaf_mean.getD 0
    vmaf_min := pooled.vmaf_min.getD 0
    vmaf_max := pooled.vmaf_max.getD 0
    ssim_score := if acc.ssim_scores = [] then 0
      else acc.ssim_scores.sum / (acc.ssim_scores.length : ℚ)
    psnr_score := if acc.psnr_scores = [] then 0
      else acc.psnr_scores.sum / (acc.psnr_scores.length : ℚ)
    ms_ssim_score := none
    frame_data := acc.frame_data }

/-! ## Statistics (`AssessmentService.get_statistics`,
assessment_service.py lines 174-209) -/

/-- Python `sorted(values)`: a stable ascending sort. -/
def pySorted (values : List ℚ) : List ℚ :=
  values.insertionSort (· ≤ ·)

/-- The dictionary `calc_stats` builds.  `std_sq` is the square of the
code's `statistics.stdev` value (the sample variance; the square root of
a rational is not rational-representable, and squaring loses nothing
since the standard deviation is non-negative). -/
structure Stats where
  mean : ℚ
  min : ℚ
  max : ℚ
  median : ℚ
  std_sq : ℚ
  p5 : ℚ
  p95 : ℚ
deriving DecidableEq, Repr

/-- `statistics.median`: middle element of the sorted list, or the average
of the two middle elements for even length. -/
def pyMedian (values : List ℚ) : ℚ :=
  let s := pySorted values
  let n := s.length
  if n % 2 = 1 then s.getD (n / 2) 0
  else (s.getD (n / 2 - 1) 0 + s.getD (n / 2) 0) / 2

/-- `statistics.mean`. -/
def pyMean (values : List ℚ) : ℚ :=
  values.sum / (values.length : ℚ)

/-- Square of `statistics.stdev`: the sample variance with divisor `n-1`. -/
def sampleVarOf (values : List ℚ) : ℚ :=
  (values.map (fun x => (x - pyMean values) ^ 2)).sum / ((values.length : ℚ) - 1)

/-- assessment_service.py lines 185-198: `calc_stats`, only ever applied
to a nonempty list.  `int(n * 0.05)` / `int(n * 0.95)` agree with the
rational floors `⌊n/20⌋` / `⌊19n/20⌋` (the double rounding error is far
below the distance to the next integer for any feasible `n`). -/
def calc_stats (values : List ℚ) : Stats :=
  let sorted_values := pySorted values
  let n := values.length
  { mean := pyMean values
    min := (values.min?).getD 0
    max := (values.max?).getD 0
    median := pyMedian values
    std_sq := if 1 < n then sampleVarOf values else 0
    p5 := sorted_values.getD ⌊(n : ℚ) * (5 / 100 : ℚ)⌋.toNat 0
    p95 := sorted_values.getD ⌊(n : ℚ) * (95 / 100 : ℚ)⌋.toNat 0 }

/-- Per-metric statistics answer of `get_statistics` (`none` = the metric
had zero reported values and is omitted). -/
structure StatsResult where
  vmaf : Option Stats
  ssim : Option Stats
  psnr : Option Stats
deriving DecidableEq, Repr

/-- The vmaf values present in a frame-data list. -/
def vmafValues (frame_data : List FrameRecord) : List ℚ :=
  frame_data.filterMap (fun f => f.vmaf)

/-- The ssim values present in a frame-data list. -/
def ssimValues (frame_data : List FrameRecord) : List ℚ :=
  frame_data.filterMap (fun f => f.ssim)

/-- The psnr values present in a frame-data list. -/
def psnrValues (frame_data : List FrameRecord) : List ℚ :=
  frame_data.filterMap (fun f => f.psnr)

/-- assessment_service.py lines 174-209: `None` when the frame-data list
is absent or empty (both falsy in Python); otherwise one optional `Stats`
per metric, omitted when no frame reported it. -/
def get_statistics (frame_data : List FrameRecord) : Option StatsResult :=
  if frame_data = [] then none
  else some
    { vmaf := if vmafValues frame_data = [] then none
        else some (calc_stats (vmafValues frame_data))
      ssim := if ssimValues frame_data = [] then none
        else some (calc_stats (ssimValues frame_data))
      psnr := if psnrValues frame_data = [] then none
        else some (calc_stats (psnrValues frame_data)) }

/-- The spec's sorted-index percentile: lookup at
`index = floor(n × percentile)` clamped to the valid range. -/
def specPercentile (values : List ℚ) (p : ℚ) : ℚ :=
  (pySorted values).getD
    (min ⌊(values.length : ℚ) * p⌋.toNat (values.length - 1)) 0

/-- The spec's description of one metric's statistics block (the sample
standard deviation stated through its square). -/
def StatsSpec (values : List ℚ) (st : Stats) : Prop :=
  st.mean = values.sum / (values.length : ℚ) ∧
  st.median = pyMedian values ∧
  st.std_sq = (if 2 ≤ values.length then
    (values.map (fun x => (x - st.mean) ^ 2)).sum / ((values.length : ℚ) - 1) else 0) ∧
  st.p5 = specPercentile values (5 / 100) ∧
  st.p95 = specPercentile values (95 / 100) ∧
  st.min ∈ values ∧ (∀ x ∈ values, st.min ≤ x) ∧
  st.max ∈ values ∧ (∀ x ∈ values, x ≤ st.max)

/-! ## Problem frames (`AssessmentService.get_problem_frames`,
assessment_service.py lines 211-233) -/

/-- The sort key `lambda x: x.get("vmaf", 0)`. -/
def vmafKey (f : FrameRecord) : ℚ :=
  f.vmaf.getD 0

/-- The filter `f.get("vmaf") is not None and f["vmaf"] < threshold`. -/
def isProblemFrame (threshold : ℚ) (f : FrameRecord) : Bool :=
  match f.vmaf with
  | some v => decide (v < threshold)
  | none => false

/-- Comparison by the vmaf sort key. -/
def vmafKeyLe (a b : FrameRecord) : Prop :=
  vmafKey a ≤ vmafKey b

instance : DecidableRel vmafKeyLe := fun a b =>
  inferInstanceAs (Decidable (vmafKey a ≤ vmafKey b))

instance : IsTotal FrameRecord vmafKeyLe :=
  ⟨fun _ _ => le_total _ _⟩

instance : IsTrans FrameRecord vmafKeyLe :=
  ⟨fun _ _ _ h1 h2 => le_trans h1 h2⟩

/-- assessment_service.py lines 224-233: keep frames with a present vmaf
strictly below the threshold, stable-sort ascending by vmaf, truncate to
`limit`.  (Defaults: threshold 70, limit 10.) -/
def get_problem_frames (frame_data : List FrameRecord) (threshold : ℚ) (limit : Nat) :
    List FrameRecord :=
  if frame_data = [] then []
  else
    let problem_frames := frame_data.filter (isProblemFrame threshold)
    (problem_frames.insertionSort vmafKeyLe).take limit

/-! ## Assessment state machine (`AssessmentService`, assessment_service.py)

Database identities, batch identifiers, file paths and error-message
texts are abstracted to `Nat` tags; timestamps to a logical clock.
The `assessments` list models the `assessments` table kept in ascending
id order (ids are autoincremented), so `List.find?` over it realizes the
code's `ORDER BY id LIMIT 1` queries. -/

/-- `TaskStatus` (models/video.py lines 18-24). -/
inductive TaskStatus
  | pending
  | running
  | completed
  | failed
  | cancelled
deriving DecidableEq, Repr

/-- The spec's terminal states. -/
def TaskStatus.isTerminal : TaskStatus → Bool
  | .completed => true
  | .failed => true
  | .cancelled => true
  | _ => false

/-- One row of the `assessments` table (models/video.py lines 72-117). -/
structure Assessment where
  id : Nat
  batch_id : Option Nat
  status : TaskStatus
  progress : ℚ
  current_frame : Int
  total_frames : Int
  error_message : Option Nat
  vmaf_score : Option ℚ
  vmaf_min : Option ℚ
  vmaf_max : Option ℚ
  ssim_score : Option ℚ
  psnr_score : Option ℚ
  ms_ssim_score : Option ℚ
  frame_data_path : Option Nat
  started_at : Option Nat
  completed_at : Option Nat
deriving DecidableEq, Repr

/-- The in-process service state: persisted rows, the process-wide
`running_tasks` table (ids whose driving task is live, i.e. not done),
the configured cap, the autoincrement counter, and a logical clock. -/
structure ServiceState where
  assessments : List Assessment
  running_tasks : List Nat
  max_concurrent : Nat
  next_id : Nat
  clock : Nat
deriving DecidableEq, Repr

/-- Error taxonomy raised synchronously by the operations. -/
inductive SvcErr
  | notFound
  | invalidState
  | concurrencyLimit
deriving DecidableEq, Repr

/-- `session.get(Assessment, id)`. -/
def findAssessment (s : ServiceState) (id : Nat) : Option Assessment :=
  s.assessments.find? (fun a => a.id = id)

/-- Commit an update of the row with the given id (other rows untouched). -/
def updateAssessment (s : ServiceState) (id : Nat) (f : Assessment → Assessment) :
    ServiceState :=
  { s with assessments := s.assessments.map (fun a => if a.id = id then f a else a) }

/-- assessment_service.py lines 26-52: `create_assessment` (the video
existence checks live upstream and no claim depends on them); appends a
`pending` row with `total_frames` seeded from the reference video. -/
def create_assessment (s : ServiceState) (b : Option Nat) (tf : Int) : ServiceState :=
  { s with
    assessments := s.assessments ++
      [{ id := s.next_id, batch_id := b, status := .pending, progress := 0,
         current_frame := 0, total_frames := tf, error_message := none,
         vmaf_score := none, vmaf_min := none, vmaf_max := none,
         ssim_score := none, psnr_score := none, ms_ssim_score := none,
         frame_data_path := none, started_at := none, completed_at := none }]
    next_id := s.next_id + 1 }

/-- assessment_service.py lines 54-88: `start_assessment`.  Checks, in
code order: the live-task count against the cap, existence, and only the
`RUNNING` status; then commits `status := running` with a start stamp and
registers the driving task.  An error raises before any mutation. -/
def start_assessment (s : ServiceState) (id : Nat) : Except SvcErr ServiceState :=
  if s.max_concurrent ≤ s.running_tasks.length then .error .concurrencyLimit
  else
    match findAssessment s id with
    | none => .error .notFound
    | some a =>
      if a.status = .running then .error .invalidState
      else .ok
        { updateAssessment s id
            (fun r => { r with status := .running, started_at := some s.clock }) with
          running_tasks := s.running_tasks ++ [id]
          clock := s.clock + 1 }

/-- assessment_service.py lines 90-113: `cancel_assessment`.  Rejects a
job in any non-`RUNNING` state; on success cancels and drops the driving
task and commits `status := cancelled`. -/
def cancel_assessment (s : ServiceState) (id : Nat) : Except SvcErr ServiceState :=
  match findAssessment s id with
  | none => .error .notFound
  | some a =>
    if a.status ≠ .running then .error .invalidState
    else .ok
      { updateAssessment s id (fun r => { r with status := .cancelled }) with
        running_tasks := s.running_tasks.filter (fun t => t ≠ id) }

/-- assessment_service.py lines 342-345: the progress branch of the
driving loop.  It writes `current_frame` and `progress` unconditionally —
there is no guard on the row's current status. -/
def applyProgressRow (a : Assessment) (cf : Int) (p : ℚ) : Assessment :=
  { a with current_frame := cf, progress := p }

/-- assessment_service.py lines 347-366: the complete branch: aggregate
scores, frame-data pointer, `status := completed`, `progress := 100` and
the completion stamp — again with no guard on the current status. -/
def applyCompleteRow (a : Assessment) (r : QualityResult) (path t : Nat) : Assessment :=
  { a with
    vmaf_score := some r.vmaf_score
    vmaf_min := some r.vmaf_min
    vmaf_max := some r.vmaf_max
    ssim_score := some r.ssim_score
    psnr_score := some r.psnr_score
    ms_ssim_score := r.ms_ssim_score
    frame_data_path := some path
    status := .completed
    progress := 100
    completed_at := some t }

/-- assessment_service.py lines 368-374: the exception handler of the
driving task: `status := failed` with the message recorded. -/
def applyFailRow (a : Assessment) (msg : Nat) : Assessment :=
  { a with status := .failed, error_message := some msg }

/-- assessment_service.py lines 297-306 and 391-399: the first `PENDING`
row of a batch in id order (`ORDER BY id LIMIT 1` over the id-ordered
table). -/
def firstPendingInBatch (s : ServiceState) (b : Nat) : Option Assessment :=
  s.assessments.find? (fun a => decide (a.batch_id = some b ∧ a.status = .pending))

/-- assessment_service.py lines 385-402: `_trigger_next_batch_task`.  A
failing inner `start_assessment` raises out of the fire-and-forget task
before any mutation, leaving the state unchanged. -/
def trigger_next_batch_task (s : ServiceState) (b : Nat) : ServiceState :=
  match firstPendingInBatch s b with
  | none => s
  | some a =>
    match start_assessment s a.id with
    | .ok s2 => s2
    | .error _ => s

/-- assessment_service.py lines 288-309: `start_batch_assessment` — start
the first pending job of the batch, no-op when none is pending. -/
def start_batch_assessment (s : ServiceState) (b : Nat) : Except SvcErr ServiceState :=
  match firstPendingInBatch s b with
  | none => .ok s
  | some a => start_assessment s a.id

/-- One progress iteration of `_run_assessment` (lines 337-345) for a live
task: commit the unguarded row write. -/
def task_progress_step (s : ServiceState) (id : Nat) (cf : Int) (p : ℚ) : ServiceState :=
  updateAssessment s id (fun a => applyProgressRow a cf p)

/-- Completion of `_run_assessment` (lines 347-366 plus the `finally` at
376-383): commit the result row, drop the task from `running_tasks`, then
fire the batch hook with the job's batch id. -/
def task_complete_step (s : ServiceState) (id : Nat) (r : QualityResult) (path : Nat) :
    ServiceState :=
  let b := (findAssessment s id).bind (fun a => a.batch_id)
  let s1 :=
    { updateAssessment s id (fun a => applyCompleteRow a r path s.clock) with
      running_tasks := s.running_tasks.filter (fun t => t ≠ id)
      clock := s.clock + 1 }
  match b with
  | some bb => trigger_next_batch_task s1 bb
  | none => s1

/-- Failure of `_run_assessment` (lines 368-374 plus the `finally`):
commit the failed row, drop the task, fire the batch hook. -/
def task_fail_step (s : ServiceState) (id : Nat) (msg : Nat) : ServiceState :=
  let b := (findAssessment s id).bind (fun a => a.batch_id)
  let s1 :=
    { updateAssessment s id (fun a => applyFailRow a msg) with
      running_tasks := s.running_tasks.filter (fun t => t ≠ id) }
  match b with
  | some bb => trigger_next_batch_task s1 bb
  | none => s1

/-- Atomic-interleaving operational semantics of the service: external
operations (create / start / cancel / batch start) and the suspension-
point-delimited steps of a live driving task.  `lateTrigger` covers the
batch hook firing from the `finally` block of a task that was cancelled
(CancelledError passes through `finally`), at an arbitrary moment.
Each operation is one transition here, which collapses its internal
awaits; in particular `start` runs its concurrency gate (line 61) and
its task-table registration (line 88) in one step.  That granularity
matches the scenarios proved over this relation (single-client traces
and batch runs driven only by their own tasks), but it hides the race
between two concurrent `start` calls; `FStep` below splits `start` at
its actual suspension points and exposes that race. -/
inductive Step : ServiceState → ServiceState → Prop
  | create (s : ServiceState) (b : Option Nat) (tf : Int) :
      Step s (create_assessment s b tf)
  | start (s : ServiceState) (id : Nat) (s2 : ServiceState) :
      start_assessment s id = .ok s2 → Step s s2
  | cancel (s : ServiceState) (id : Nat) (s2 : ServiceState) :
      cancel_assessment s id = .ok s2 → Step s s2
  | startBatch (s : ServiceState) (b : Nat) (s2 : ServiceState) :
      start_batch_assessment s b = .ok s2 → Step s s2
  | taskProgress (s : ServiceState) (id : Nat) (cf : Int) (p : ℚ) :
      id ∈ s.running_tasks → Step s (task_progress_step s id cf p)
  | taskComplete (s : ServiceState) (id : Nat) (r : QualityResult) (path : Nat) :
      id ∈ s.running_tasks → Step s (task_complete_step s id r path)
  | taskFail (s : ServiceState) (id : Nat) (msg : Nat) :
      id ∈ s.running_tasks → Step s (task_fail_step s id msg)
  | lateTrigger (s : ServiceState) (b : Nat) :
      Step s (trigger_next_batch_task s b)

/-- A fresh service process with the configured cap. -/
def initState (cap : Nat) : ServiceState :=
  { assessments := [], running_tasks := [], max_concurrent := cap,
    next_id := 1, clock := 0 }

/-- States reachable from a fresh process. -/
def Reachable (cap : Nat) (s : ServiceState) : Prop :=
  Relation.ReflTransGen Step (initState cap) s

/-- Number of rows whose persisted status is `running`. -/
def runningCount (s : ServiceState) : Nat :=
  s.assessments.countP (fun a => decide (a.status = .running))

/-! ## Fine-grained semantics of start_assessment

`start_assessment` (assessment_service.py lines 54-88) is a coroutine
with two internal suspension points: `await session.get` at line 66 and
`await session.commit` at line 82.  They separate the concurrency gate
(line 61) from the task-table registration (line 88), so between the
gate of one call and its registration the event loop can run other
coroutines — including another `start_assessment` call.  The segments
below cut the function at exactly those awaits. -/

/-- Lines 60-63: the concurrency gate, counting the not-done entries of
the live-task table (`running_tasks`) against the cap.  Runs before the
first await of the call. -/
def start_gate (s : ServiceState) : Except SvcErr Unit :=
  if s.max_concurrent ≤ s.running_tasks.length then .error .concurrencyLimit
  else .ok ()

/-- Lines 65-82, executed when the call resumes from the `session.get`
await: existence and `RUNNING`-status validation, then `status :=
running` with the start stamp, committed at line 82.  The task-table
registration has not happened yet. -/
def start_validate_commit (s : ServiceState) (id : Nat) : Except SvcErr ServiceState :=
  match findAssessment s id with
  | none => .error .notFound
  | some a =>
    if a.status = .running then .error .invalidState
    else .ok
      { updateAssessment s id
          (fun r => { r with status := .running, started_at := some s.clock }) with
        clock := s.clock + 1 }

/-- Lines 84-88, executed when the call resumes after its commit
completes: `asyncio.create_task` and the `running_tasks` registration
(no further await). -/
def start_register (s : ServiceState) (id : Nat) : ServiceState :=
  { s with running_tasks := s.running_tasks ++ [id] }

/-- The suspension point at which an in-flight `start_assessment` call
is parked. -/
inductive StartPhase
  | gated
  | committed
deriving DecidableEq, Repr

/-- An in-flight `start_assessment` coroutine: its target assessment id
and the suspension point it is parked at.  `gated` = past the gate,
suspended at the `session.get` of line 66; `committed` = row committed
`running` at line 82, not yet resumed to register the task. -/
structure InflightStart where
  target : Nat
  phase : StartPhase
deriving DecidableEq, Repr

/-- Service state plus the in-flight `start_assessment` calls. -/
structure FState where
  svc : ServiceState
  calls : List InflightStart
deriving DecidableEq, Repr

/-- Fine-grained interleaving of `create_assessment` calls and
`start_assessment` coroutines, each `start` split at its two awaits:
`gatePass`/`gateFail` run the gate synchronously at invocation time and
either park the call at `session.get` or raise; `resumeCommit`/
`resumeError` run the validate-and-commit segment of any parked call;
`resumeRegister` runs the final registration segment.  Any parked call
may be the one resumed, so every trace of this relation is a genuine
event-loop schedule of the program (the relation under-approximates the
program: operations other than create/start are simply not invoked). -/
inductive FStep : FState → FState → Prop
  | create (f : FState) (b : Option Nat) (tf : Int) :
      FStep f ⟨create_assessment f.svc b tf, f.calls⟩
  | gatePass (f : FState) (id : Nat) :
      start_gate f.svc = .ok () →
      FStep f ⟨f.svc, f.calls ++ [⟨id, StartPhase.gated⟩]⟩
  | gateFail (f : FState) (id : Nat) :
      start_gate f.svc = .error .concurrencyLimit →
      FStep f f
  | resumeCommit (f : FState) (pre post : List InflightStart) (id : Nat)
      (s2 : ServiceState) :
      f.calls = pre ++ ⟨id, StartPhase.gated⟩ :: post →
      start_validate_commit f.svc id = .ok s2 →
      FStep f ⟨s2, pre ++ ⟨id, StartPhase.committed⟩ :: post⟩
  | resumeError (f : FState) (pre post : List InflightStart) (id : Nat) (e : SvcErr) :
      f.calls = pre ++ ⟨id, StartPhase.gated⟩ :: post →
      start_validate_commit f.svc id = .error e →
      FStep f ⟨f.svc, pre ++ post⟩
  | resumeRegister (f : FState) (pre post : List InflightStart) (id : Nat) :
      f.calls = pre ++ ⟨id, StartPhase.committed⟩ :: post →
      FStep f ⟨start_register f.svc id, pre ++ post⟩

/-- A fresh process under the fine-grained semantics: no in-flight
calls. -/
def finitState (cap : Nat) : FState :=
  ⟨initState cap, []⟩

/-- States reachable from a fresh process under the fine-grained
semantics. -/
def FReachable (cap : Nat) (f : FState) : Prop :=
  Relation.ReflTransGen FStep (finitState cap) f

/-! ## Batch scenario (C7) -/

/-- The state right after `create_batch_assessment` with `n` distorted
videos: `n` pending jobs sharing batch id 0, ids 1..n in creation
order, no live tasks. -/
def batchInit (n cap : Nat) (tf : Int) : ServiceState :=
  { assessments := (List.range n).map (fun i =>
      { id := i + 1, batch_id := some 0, status := .pending, progress := 0,
        current_frame := 0, total_frames := tf, error_message := none,
        vmaf_score := none, vmaf_min := none, vmaf_max := none,
        ssim_score := none, psnr_score := none, ms_ssim_score := none,
        frame_data_path := none, started_at := none, completed_at := none }),
    running_tasks := [], max_concurrent := cap, next_id := n + 1, clock := 0 }

/-- The steps a batch run consists of once started: the live driving
tasks progressing, completing or failing (no other client calls). -/
inductive DriveStep : ServiceState → ServiceState → Prop
  | taskProgress (s : ServiceState) (id : Nat) (cf : Int) (p : ℚ) :
      id ∈ s.running_tasks → DriveStep s (task_progress_step s id cf p)
  | taskComplete (s : ServiceState) (id : Nat) (r : QualityResult) (path : Nat) :
      id ∈ s.running_tasks → DriveStep s (task_complete_step s id r path)
  | taskFail (s : ServiceState) (id : Nat) (msg : Nat) :
      id ∈ s.running_tasks → DriveStep s (task_fail_step s id msg)

/-- Structural invariant of every reachable service state: rows are in
strictly increasing id order below the autoincrement counter, a row's
status is `running` exactly when its id is in the task table, every
table entry has a row, the table has no duplicates and respects the
configured cap. -/
structure SvcInv (s : ServiceState) : Prop where
  ids_sorted : s.assessments.Pairwise (fun a b => a.id < b.id)
  ids_lt : ∀ a ∈ s.assessments, a.id < s.next_id
  sync : ∀ a ∈ s.assessments, (a.status = .running ↔ a.id ∈ s.running_tasks)
  tex : ∀ i ∈ s.running_tasks, ∃ a ∈ s.assessments, a.id = i
  tnd : s.running_tasks.Nodup
  cap : s.running_tasks.length ≤ s.max_concurrent

/-- Sequential-batch shape: in creation (= id) order the rows are a
prefix of terminal jobs, at most one job that is running or still
pending at the boundary, and pending jobs after it. -/
def BatchShape (l : List Assessment) : Prop :=
  ∃ k, k ≤ l.length ∧ ∀ (i : Nat) (h : i < l.length),
    (i < k → (l[i].status).isTerminal = true) ∧
    (i = k → l[i].status = .running ∨ l[i].status = .pending) ∧
    (k < i → l[i].status = .pending)

/-- A run with no job currently running: terminal rows strictly before
position `k`, pending rows from `k` on. -/
def ZoneSplit (l : List Assessment) (k : Nat) : Prop :=
  ∀ (i : Nat) (hi : i < l.length),
    (i < k → (l[i].status).isTerminal = true) ∧ (k ≤ i → l[i].status = .pending)

/-- Invariant of a driven batch run. -/
structure BatchInv (s : ServiceState) : Prop where
  base : SvcInv s
  batch : ∀ a ∈ s.assessments, a.batch_id = some 0
  shape : BatchShape s.assessments
  cap1 : 1 ≤ s.max_concurrent

/-! ## Concrete fixtures used by witnesses and counterexamples -/

/-- A probe document whose video stream reports the unparseable
frame-rate expression `"abc"`. -/
def c5Data : ProbeData :=
  { streams := [{ codec_type := "video".toList, width := 1920, height := 1080,
                  r_frame_rate := some "abc".toList, nb_frames := 100,
                  codec_name := "h264".toList, pix_fmt := "yuv420p".toList,
                  bit_rate := 0 }],
    duration := 10, format_bit_rate := 0 }

/-- Video stream for the C5 witness: frame rate absent, zero frames. -/
def c5WitStream : ProbeStream :=
  { codec_type := "video".toList, width := 1280, height := 720,
    r_frame_rate := none, nb_frames := 0,
    codec_name := "h264".toList, pix_fmt := "yuv420p".toList,
    bit_rate := 700 }

/-- Probe document for the C5 witness: frame rate absent in the stream,
zero reported frames, ten-second duration. -/
def c5WitData : ProbeData :=
  { streams := [c5WitStream], duration := 10, format_bit_rate := 0 }


/-- The claim's example frames: vmaf 90; vmaf 91 with ssim missing;
vmaf missing with ssim 0.9. -/
def c6ExFrames : List VmafFrame :=
  [{ frameNum := 0, vmaf := some 90, ssim := none, psnr := none },
   { frameNum := 1, vmaf := some 91, ssim := none, psnr := none },
   { frameNum := 2, vmaf := none, ssim := some (9 / 10), psnr := none }]

/-- Pooled metrics accompanying the example. -/
def c6ExPooled : PooledMetrics :=
  { vmaf_mean := some 90, vmaf_min := some 85, vmaf_max := some 95 }

/-- Twenty frames whose VMAF values are a permutation of 1..20
(SSIM/PSNR absent everywhere). -/
def c8Frames : List FrameRecord :=
  [{ frame_num := 0, vmaf := some 7, ssim := none, psnr := none },
   { frame_num := 1, vmaf := some 1, ssim := none, psnr := none },
   { frame_num := 2, vmaf := some 20, ssim := none, psnr := none },
   { frame_num := 3, vmaf := some 3, ssim := none, psnr := none },
   { frame_num := 4, vmaf := some 9, ssim := none, psnr := none },
   { frame_num := 5, vmaf := some 2, ssim := none, psnr := none },
   { frame_num := 6, vmaf := some 15, ssim := none, psnr := none },
   { frame_num := 7, vmaf := some 4, ssim := none, psnr := none },
   { frame_num := 8, vmaf := some 12, ssim := none, psnr := none },
   { frame_num := 9, vmaf := some 5, ssim := none, psnr := none },
   { frame_num := 10, vmaf := some 18, ssim := none, psnr := none },
   { frame_num := 11, vmaf := some 6, ssim := none, psnr := none },
   { frame_num := 12, vmaf := some 11, ssim := none, psnr := none },
   { frame_num := 13, vmaf := some 8, ssim := none, psnr := none },
   { frame_num := 14, vmaf := some 16, ssim := none, psnr := none },
   { frame_num := 15, vmaf := some 10, ssim := none, psnr := none },
   { frame_num := 16, vmaf := some 19, ssim := none, psnr := none },
   { frame_num := 17, vmaf := some 13, ssim := none, psnr := none },
   { frame_num := 18, vmaf := some 17, ssim := none, psnr := none },
   { frame_num := 19, vmaf := some 14, ssim := none, psnr := none }]

/-- The claim's example: five frames with primary scores
80, 60, 95, 40, 70. -/
def c9Frames : List FrameRecord :=
  [{ frame_num := 0, vmaf := some 80, ssim := none, psnr := none },
   { frame_num := 1, vmaf := some 60, ssim := none, psnr := none },
   { frame_num := 2, vmaf := some 95, ssim := none, psnr := none },
   { frame_num := 3, vmaf := some 40, ssim := none, psnr := none },
   { frame_num := 4, vmaf := some 70, ssim := none, psnr := none }]

/-- Deterministic fake adapter result used to drive jobs to completion
in concrete traces. -/
def c1Result : QualityResult :=
  { vmaf_score := 95, vmaf_min := 90, vmaf_max := 99, ssim_score := 1,
    psnr_score := 40, ms_ssim_score := none, frame_data := [] }

/-- Trace for C1: fresh process with cap 3. -/
def c1s0 : ServiceState := initState 3

/-- One pending job created. -/
def c1s1 : ServiceState := create_assessment c1s0 none 10

/-- The job started (mirrors the ok branch of `start_assessment`). -/
def c1s2 : ServiceState :=
  { updateAssessment c1s1 1
      (fun r => { r with status := .running, started_at := some c1s1.clock }) with
    running_tasks := c1s1.running_tasks ++ [1], clock := c1s1.clock + 1 }

/-- The job driven to completion. -/
def c1s3 : ServiceState := task_complete_step c1s2 1 c1Result 7

/-- The completed row of `c1s3`. -/
def c1DoneRow : Assessment :=
  { id := 1, batch_id := none, status := .completed, progress := 100,
    current_frame := 0, total_frames := 10, error_message := none,
    vmaf_score := some 95, vmaf_min := some 90, vmaf_max := some 99,
    ssim_score := some 1, psnr_score := some 40, ms_ssim_score := none,
    frame_data_path := some 7, started_at := some 0, completed_at := some 1 }

/-- A job record in the `cancelled` state with persisted progress 10. -/
def c2Job : Assessment :=
  { id := 1, batch_id := none, status := .cancelled, progress := 10,
    current_frame := 4, total_frames := 40, error_message := none,
    vmaf_score := none, vmaf_min := none, vmaf_max := none,
    ssim_score := none, psnr_score := none, ms_ssim_score := none,
    frame_data_path := none, started_at := some 0, completed_at := none }

/-- Service state holding the cancelled job, with its driving task
already removed from the task table (as `cancel_assessment` leaves it). -/
def c2State : ServiceState :=
  { assessments := [c2Job], running_tasks := [], max_concurrent := 3,
    next_id := 2, clock := 5 }

/-- Trace for C3: fresh process with cap 1. -/
def c3s0 : ServiceState := initState 1

/-- First pending job created. -/
def c3s1 : ServiceState := create_assessment c3s0 none 10

/-- Second pending job created. -/
def c3s2 : ServiceState := create_assessment c3s1 none 10

/-- Fine-grained C3 trace: the first `start(1)` call has passed the gate
(the task table is empty) and is parked at its `session.get`. -/
def c3f1 : FState := ⟨c3s2, [⟨1, StartPhase.gated⟩]⟩

/-- The first call resumed through validation and committed job 1 to
`running`; its task-table registration is still pending, so the table
is empty while the persisted running count sits at the cap of 1. -/
def c3m1 : ServiceState :=
  { updateAssessment c3s2 1
      (fun r => { r with status := .running, started_at := some c3s2.clock }) with
    clock := c3s2.clock + 1 }

/-- The fine-grained state parking the first call after its commit. -/
def c3f2 : FState := ⟨c3m1, [⟨1, StartPhase.committed⟩]⟩

/-- A second `start(2)` call invoked here also passes the gate — the
table it counts is still empty although one job's status is already
`running` at the cap. -/
def c3f3 : FState := ⟨c3m1, [⟨1, StartPhase.committed⟩, ⟨2, StartPhase.gated⟩]⟩

/-- The first call resumed and registered its driving task. -/
def c3f4 : FState := ⟨start_register c3m1 1, [⟨2, StartPhase.gated⟩]⟩

/-- The second call resumed through validation (job 2 is `pending`) and
committed job 2 to `running` as well. -/
def c3m2 : ServiceState :=
  { updateAssessment (start_register c3m1 1) 2
      (fun r => { r with status := .running,
                         started_at := some (start_register c3m1 1).clock }) with
    clock := (start_register c3m1 1).clock + 1 }

/-- The fine-grained state parking the second call after its commit. -/
def c3f5 : FState := ⟨c3m2, [⟨2, StartPhase.committed⟩]⟩

/-- Both calls finished: two jobs `running` under a cap of 1. -/
def c3f6 : FState := ⟨start_register c3m2 2, []⟩

/-- Batch trace for C7: two jobs against one reference, cap 1. -/
def c7s0 : ServiceState := batchInit 2 1 5

/-- After `start_batch_assessment`: job 1 running, job 2 pending. -/
def c7s1 : ServiceState :=
  { updateAssessment c7s0 1
      (fun r => { r with status := .running, started_at := some c7s0.clock }) with
    running_tasks := c7s0.running_tasks ++ [1], clock := c7s0.clock + 1 }

/-- After job 1 completes: the hook auto-starts job 2. -/
def c7s2 : ServiceState := task_complete_step c7s1 1 c1Result 3

/-! ## C5: probe frame-rate parsing and frame-count synthesis -/

/-- C5, counterexample: on a probe output containing a video stream whose
frame-rate expression is unparseable (`"abc"`), `get_video_info` raises
(`float("abc")` throws `ValueError`) instead of defaulting to 30 fps. -/
theorem c5_counterexample : get_video_info c5Data = .error .valueError := rfl

/-- C5, amended: the 30 fps default applies only when the
`r_frame_rate` key is absent (the code defaults the string to `"30/1"`)
or when a two-part fractional expression has a non-positive denominator;
any other unparseable expression raises.  When the reported frame count
is 0, the frame count is synthesized as `int(duration × frame_rate)`. -/
theorem c5_amended :
    parseFrameRate none = some 30 ∧
      (∀ (s num den : Chars) (nI dI : Int),
        s.contains '/' = true →
        splitOnChar '/' s = [num, den] →
        parsePyInt num = some nI →
        parsePyInt den = some dI →
        dI ≤ 0 →
        parseFrameRate (some s) = some 30) ∧
      (∀ (d : ProbeData) (vs : ProbeStream) (fr : ℚ),
        d.streams.find? (fun t => t.codec_type = "video".toList) = some vs →
        parseFrameRate vs.r_frame_rate = some fr →
        vs.nb_frames = 0 →
        get_video_info d = .ok
          { width := vs.width, height := vs.height, duration := d.duration,
            frame_rate := fr, frame_count := pyTrunc (d.duration * fr),
            codec := vs.codec_name,
            bitrate := if d.format_bit_rate = 0 then vs.bit_rate else d.format_bit_rate,
            pixel_format := vs.pix_fmt }) := by
  refine ⟨?_, ?_, ?_⟩
  · have h1 : parseFrameRate none =
        some ((((30 : Nat) : Int) : ℚ) / (((1 : Nat) : Int) : ℚ)) := rfl
    rw [h1]
    norm_num
  · intro s num den nI dI hc hsplit hn hd hle
    unfold parseFrameRate
    simp only [Option.getD, hc, if_true]
    rw [hsplit]
    dsimp only
    rw [hn, hd]
    dsimp only
    rw [if_neg (by omega)]
  · intro d vs fr hfind hfr hnb
    unfold get_video_info
    rw [hfind]
    dsimp only
    rw [hfr]
    dsimp only
    rw [hnb]
    norm_num

/-- C5, witness: a zero/one fraction defaults to 30 fps, and a stream
with absent frame rate and zero reported frames gets frame rate 30 and
frame count `int(10 × 30) = 300`. -/
theorem c5_witness :
    (("30/0".toList.contains '/' = true ∧
        splitOnChar '/' "30/0".toList = ["30".toList, "0".toList] ∧
        parsePyInt "30".toList = some 30 ∧
        parsePyInt "0".toList = some 0 ∧
        (0 : Int) ≤ 0 ∧
        parseFrameRate (some "30/0".toList) = some 30) ∧
      (c5WitData.streams.find? (fun t => t.codec_type = "video".toList) =
          some (c5WitStream) ∧
        parseFrameRate (c5WitStream).r_frame_rate = some 30 ∧
        (c5WitStream).nb_frames = 0)) ∧
      get_video_info c5WitData = .ok
        { width := 1280, height := 720, duration := 10,
          frame_rate := 30, frame_count := pyTrunc (10 * 30),
          codec := "h264".toList, bitrate := 700,
          pixel_format := "yuv420p".toList } := by
  have hdef : parseFrameRate none = some 30 := c5_amended.1
  have hfrac : parseFrameRate (some "30/0".toList) = some 30 :=
    c5_amended.2.1 "30/0".toList "30".toList "0".toList 30 0
      (by decide) (by decide) (by decide) (by decide) (by decide)
  have hmain := c5_amended.2.2 c5WitData (c5WitStream) 30
    (by decide) hdef rfl
  exact ⟨⟨⟨by decide, by decide, by decide, by decide, by decide, hfrac⟩,
    ⟨by decide, hdef, rfl⟩⟩, hmain⟩

/-! ## C6: result-parser aggregation -/

/-- The parser loop accumulates, over any starting accumulator, the
per-frame records in order and the per-metric value lists of exactly the
frames that reported each metric. -/
lemma foldl_parseStep (frames : List VmafFrame) :
    ∀ acc : ParseAcc, frames.foldl parseStep acc =
      { frame_data := acc.frame_data ++ frames.map (fun f =>
          ({ frame_num := f.frameNum, vmaf := f.vmaf,
             ssim := f.ssim, psnr := f.psnr } : FrameRecord)),
        vmaf_scores := acc.vmaf_scores ++ frames.filterMap (fun f => f.vmaf),
        ssim_scores := acc.ssim_scores ++ frames.filterMap (fun f => f.ssim),
        psnr_scores := acc.psnr_scores ++ frames.filterMap (fun f => f.psnr) } := by
  induction frames with
  | nil => intro acc; simp
  | cons f fs ih =>
    intro acc
    rw [List.foldl_cons, ih]
    unfold parseStep
    simp only [List.map_cons, List.filterMap_cons]
    cases hv : f.vmaf <;> cases hs : f.ssim <;> cases hp : f.psnr <;>
      simp [List.append_assoc]

/-- The accumulated lists of the whole parse. -/
lemma parseFrames_eq (frames : List VmafFrame) :
    parseFrames frames =
      { frame_data := frames.map (fun f =>
          ({ frame_num := f.frameNum, vmaf := f.vmaf,
             ssim := f.ssim, psnr := f.psnr } : FrameRecord)),
        vmaf_scores := frames.filterMap (fun f => f.vmaf),
        ssim_scores := frames.filterMap (fun f => f.ssim),
        psnr_scores := frames.filterMap (fun f => f.psnr) } := by
  unfold parseFrames
  rw [foldl_parseStep]
  rfl

/-- C6: the aggregate VMAF mean/min/max are copied from `pooled_metrics`
(0 when absent); the per-frame list preserves each frame's three
independently-nullable metric values; the collected VMAF value list holds
exactly the VMAF-present frames; and the SSIM/PSNR aggregate is the
arithmetic mean over exactly the frames that reported that metric
(frames missing it are excluded, never coerced to zero). -/
theorem c6_metric_aggregation (frames : List VmafFrame) (pooled : PooledMetrics) :
    (parse_vmaf_json frames pooled).vmaf_score = pooled.vmaf_mean.getD 0 ∧
      (parse_vmaf_json frames pooled).vmaf_min = pooled.vmaf_min.getD 0 ∧
      (parse_vmaf_json frames pooled).vmaf_max = pooled.vmaf_max.getD 0 ∧
      (parse_vmaf_json frames pooled).frame_data.map
          (fun fr => (fr.frame_num, fr.vmaf, fr.ssim, fr.psnr)) =
        frames.map (fun f => (f.frameNum, f.vmaf, f.ssim, f.psnr)) ∧
      (parseFrames frames).vmaf_scores = frames.filterMap (fun f => f.vmaf) ∧
      (frames.filterMap (fun f => f.ssim) ≠ [] →
        (parse_vmaf_json frames pooled).ssim_score =
          (frames.filterMap (fun f => f.ssim)).sum /
            ((frames.filterMap (fun f => f.ssim)).length : ℚ)) ∧
      (frames.filterMap (fun f => f.psnr) ≠ [] →
        (parse_vmaf_json frames pooled).psnr_score =
          (frames.filterMap (fun f => f.psnr)).sum /
            ((frames.filterMap (fun f => f.psnr)).length : ℚ)) := by
  unfold parse_vmaf_json
  rw [parseFrames_eq]
  refine ⟨rfl, rfl, rfl, by simp, rfl, ?_, ?_⟩
  · intro hne
    simp only
    rw [if_neg hne]
  · intro hne
    simp only
    rw [if_neg hne]

/-- C6, witness at the claim's example: the SSIM mean is 0.9 (computed
over the single SSIM-present frame) and the mean of the VMAF-present
values is 90.5. -/
theorem c6_witness :
    (c6ExFrames.filterMap (fun f => f.ssim) ≠ [] ∧
        (parse_vmaf_json c6ExFrames c6ExPooled).ssim_score =
          (c6ExFrames.filterMap (fun f => f.ssim)).sum /
            ((c6ExFrames.filterMap (fun f => f.ssim)).length : ℚ)) ∧
      (parse_vmaf_json c6ExFrames c6ExPooled).ssim_score = 9 / 10 ∧
      (parseFrames c6ExFrames).vmaf_scores = [90, 91] ∧
      pyMean (parseFrames c6ExFrames).vmaf_scores = 181 / 2 ∧
      (parse_vmaf_json c6ExFrames c6ExPooled).vmaf_score = 90 := by
  have h := (c6_metric_aggregation c6ExFrames c6ExPooled).2.2.2.2.2.1 (by decide)
  have hvs : (parseFrames c6ExFrames).vmaf_scores = [90, 91] :=
    (c6_metric_aggregation c6ExFrames c6ExPooled).2.2.2.2.1.trans (by decide)
  refine ⟨⟨by decide, h⟩, ?_, hvs, ?_, ?_⟩
  · rw [h]
    have : (c6ExFrames.filterMap (fun f => f.ssim)) = [9 / 10] := rfl
    rw [this]
    norm_num
  · rw [hvs]
    unfold pyMean
    norm_num
  · exact (c6_metric_aggregation c6ExFrames c6ExPooled).1.trans (by decide)

/-! ## C8: statistics -/

instance : Std.Antisymm ((· ≤ ·) : ℚ → ℚ → Prop) :=
  ⟨fun h1 h2 => le_antisymm h1 h2⟩

/-- `floor(n × p)` is already a valid 0-based index for `0 ≤ p < 1`. -/
lemma percentile_idx_le {n : Nat} (hn : 1 ≤ n) {p : ℚ} (hp1 : p < 1) :
    (⌊(n : ℚ) * p⌋).toNat ≤ n - 1 := by
  have hnpos : (0 : ℚ) < (n : ℚ) := by exact_mod_cast hn
  have hlt : (n : ℚ) * p < (n : ℚ) := by
    calc (n : ℚ) * p < (n : ℚ) * 1 := by
          exact mul_lt_mul_of_pos_left hp1 hnpos
      _ = (n : ℚ) := mul_one _
  have hfl : ⌊(n : ℚ) * p⌋ < (n : Int) := by
    rw [Int.floor_lt]
    exact_mod_cast hlt
  omega

/-- `calc_stats` on a nonempty value list satisfies the spec's
description: mean is sum over count, sample variance with divisor `n-1`
(0 below two samples), percentiles by clamped sorted-index lookup, and
min/max are attained members. -/
lemma calc_stats_spec (values : List ℚ) (h : values ≠ []) :
    StatsSpec values (calc_stats values) := by
  have hn : 1 ≤ values.length := List.length_pos.mpr h
  obtain ⟨m, hm⟩ : ∃ m, values.min? = some m := by
    cases values with
    | nil => simp at h
    | cons x xs => exact ⟨_, rfl⟩
  obtain ⟨M, hM⟩ : ∃ M, values.max? = some M := by
    cases values with
    | nil => simp at h
    | cons x xs => exact ⟨_, rfl⟩
  have hmin := (List.min?_eq_some_iff (fun a => le_refl a)
    (fun a b => min_choice a b) (fun a b c => le_min_iff)).mp hm
  have hmax := (List.max?_eq_some_iff (fun a => le_refl a)
    (fun a b => max_choice a b) (fun a b c => max_le_iff)).mp hM
  have hle5 : (⌊(values.length : ℚ) * (5 / 100)⌋).toNat ≤ values.length - 1 :=
    percentile_idx_le hn (by norm_num)
  have hle95 : (⌊(values.length : ℚ) * (95 / 100)⌋).toNat ≤ values.length - 1 :=
    percentile_idx_le hn (by norm_num)
  refine ⟨rfl, rfl, rfl, ?_, ?_, ?_, ?_, ?_, ?_⟩
  · show (pySorted values).getD _ 0 = specPercentile values (5 / 100)
    unfold specPercentile
    rw [min_eq_left hle5]
  · show (pySorted values).getD _ 0 = specPercentile values (95 / 100)
    unfold specPercentile
    rw [min_eq_left hle95]
  · show (values.min?).getD 0 ∈ values
    rw [hm]
    exact hmin.1
  · intro x hx
    show (values.min?).getD 0 ≤ x
    rw [hm]
    exact hmin.2 x hx
  · show (values.max?).getD 0 ∈ values
    rw [hM]
    exact hmax.1
  · intro x hx
    show x ≤ (values.max?).getD 0
    rw [hM]
    exact hmax.2 x hx

/-- C8: the statistics query on a nonempty stored per-frame data set
returns, for each metric, a stats block exactly when the metric has at
least one reported value (a metric with none is omitted, not
zero-filled), and every returned block satisfies the spec's formulas:
mean, attained min/max, median, sample standard deviation (0 below two
samples), and 5th/95th percentiles via clamped `floor(n × p)` lookup. -/
theorem c8_statistics (frame_data : List FrameRecord) (h : frame_data ≠ []) :
    ∃ res, get_statistics frame_data = some res ∧
      (vmafValues frame_data = [] ↔ res.vmaf = none) ∧
      (ssimValues frame_data = [] ↔ res.ssim = none) ∧
      (psnrValues frame_data = [] ↔ res.psnr = none) ∧
      (∀ st, res.vmaf = some st → StatsSpec (vmafValues frame_data) st) ∧
      (∀ st, res.ssim = some st → StatsSpec (ssimValues frame_data) st) ∧
      (∀ st, res.psnr = some st → StatsSpec (psnrValues frame_data) st) := by
  unfold get_statistics
  rw [if_neg h]
  refine ⟨_, rfl, ?_, ?_, ?_, ?_, ?_, ?_⟩
  · by_cases hv : vmafValues frame_data = [] <;> simp [hv]
  · by_cases hv : ssimValues frame_data = [] <;> simp [hv]
  · by_cases hv : psnrValues frame_data = [] <;> simp [hv]
  · intro st hst
    by_cases hv : vmafValues frame_data = []
    · simp [hv] at hst
    · simp only [if_neg hv] at hst
      obtain rfl : calc_stats (vmafValues frame_data) = st := by
        exact Option.some.inj hst
      exact calc_stats_spec _ hv
  · intro st hst
    by_cases hv : ssimValues frame_data = []
    · simp [hv] at hst
    · simp only [if_neg hv] at hst
      obtain rfl : calc_stats (ssimValues frame_data) = st := by
        exact Option.some.inj hst
      exact calc_stats_spec _ hv
  · intro st hst
    by_cases hv : psnrValues frame_data = []
    · simp [hv] at hst
    · simp only [if_neg hv] at hst
      obtain rfl : calc_stats (psnrValues frame_data) = st := by
        exact Option.some.inj hst
      exact calc_stats_spec _ hv

/-- C8, witness at a 20-value fixture (VMAF a permutation of 1..20,
SSIM/PSNR absent): P5 is the 0-indexed element 1 of the sorted values
(= 2), P95 is element 19 (= 20, the maximum), and the SSIM metric is
omitted entirely. -/
theorem c8_witness :
    c8Frames ≠ [] ∧
      (∃ res, get_statistics c8Frames = some res ∧
        (vmafValues c8Frames = [] ↔ res.vmaf = none) ∧
        (ssimValues c8Frames = [] ↔ res.ssim = none) ∧
        (psnrValues c8Frames = [] ↔ res.psnr = none) ∧
        (∀ st, res.vmaf = some st → StatsSpec (vmafValues c8Frames) st) ∧
        (∀ st, res.ssim = some st → StatsSpec (ssimValues c8Frames) st) ∧
        (∀ st, res.psnr = some st → StatsSpec (psnrValues c8Frames) st)) ∧
      (calc_stats (vmafValues c8Frames)).p5 = 2 ∧
      (calc_stats (vmafValues c8Frames)).p95 = 20 ∧
      ssimValues c8Frames = [] := by
  have hl : ((vmafValues c8Frames).length : ℚ) = 20 := by
    rw [show (vmafValues c8Frames).length = 20 from rfl]
    norm_num
  refine ⟨by decide, c8_statistics c8Frames (by decide), ?_, ?_, rfl⟩
  · have hidx : (⌊((vmafValues c8Frames).length : ℚ) * (5 / 100)⌋).toNat = 1 := by
      rw [hl, show ((20 : ℚ) * (5 / 100) : ℚ) = ((1 : Int) : ℚ) from by norm_num,
        Int.floor_intCast]
      rfl
    show (pySorted (vmafValues c8Frames)).getD
      (⌊((vmafValues c8Frames).length : ℚ) * (5 / 100)⌋.toNat) 0 = 2
    rw [hidx]
    rfl
  · have hidx : (⌊((vmafValues c8Frames).length : ℚ) * (95 / 100)⌋).toNat = 19 := by
      rw [hl, show ((20 : ℚ) * (95 / 100) : ℚ) = ((19 : Int) : ℚ) from by norm_num,
        Int.floor_intCast]
      rfl
    show (pySorted (vmafValues c8Frames)).getD
      (⌊((vmafValues c8Frames).length : ℚ) * (95 / 100)⌋.toNat) 0 = 20
    rw [hidx]
    rfl

/-! ## C9: problem frames -/

/-- C9: the problem-frame query returns only frames whose VMAF is present
and strictly below the threshold (a frame scoring exactly the threshold
is excluded), in ascending vmaf order, truncated to `limit`; what it
returns is a sub-multiset of the strictly-below-threshold frames, and
when the limit does not truncate it is exactly that set. -/
theorem c9_problem_frames (frame_data : List FrameRecord) (threshold : ℚ) (limit : Nat) :
    (∀ f ∈ get_problem_frames frame_data threshold limit,
        ∃ v, f.vmaf = some v ∧ v < threshold) ∧
      ((get_problem_frames frame_data threshold limit).map vmafKey).Pairwise (· ≤ ·) ∧
      (get_problem_frames frame_data threshold limit).length =
        min limit (frame_data.filter (isProblemFrame threshold)).length ∧
      List.Subperm (get_problem_frames frame_data threshold limit)
        (frame_data.filter (isProblemFrame threshold)) ∧
      ((frame_data.filter (isProblemFrame threshold)).length ≤ limit →
        (get_problem_frames frame_data threshold limit).Perm
          (frame_data.filter (isProblemFrame threshold))) := by
  by_cases hfd : frame_data = []
  · subst hfd
    simp [get_problem_frames]
  · have hgpf : get_problem_frames frame_data threshold limit =
        ((frame_data.filter (isProblemFrame threshold)).insertionSort vmafKeyLe).take
          limit := by
      unfold get_problem_frames
      rw [if_neg hfd]
    have hperm := List.perm_insertionSort vmafKeyLe
      (frame_data.filter (isProblemFrame threshold))
    have hlen : ((frame_data.filter (isProblemFrame threshold)).insertionSort
        vmafKeyLe).length = (frame_data.filter (isProblemFrame threshold)).length :=
      hperm.length_eq
    refine ⟨?_, ?_, ?_, ?_, ?_⟩
    · intro f hf
      rw [hgpf] at hf
      have hsort : f ∈ (frame_data.filter (isProblemFrame threshold)).insertionSort
          vmafKeyLe := List.mem_of_mem_take hf
      have hfilt : f ∈ frame_data.filter (isProblemFrame threshold) :=
        hperm.mem_iff.mp hsort
      have hpf : isProblemFrame threshold f = true := (List.mem_filter.mp hfilt).2
      unfold isProblemFrame at hpf
      rcases hv : f.vmaf with _ | v
      · rw [hv] at hpf
        simp at hpf
      · rw [hv] at hpf
        simp only [decide_eq_true_eq] at hpf
        exact ⟨v, rfl, hpf⟩
    · rw [hgpf]
      have hsorted : List.Sorted vmafKeyLe
          ((frame_data.filter (isProblemFrame threshold)).insertionSort vmafKeyLe) :=
        List.sorted_insertionSort vmafKeyLe _
      have htake : List.Sublist
          (((frame_data.filter (isProblemFrame threshold)).insertionSort
            vmafKeyLe).take limit)
          ((frame_data.filter (isProblemFrame threshold)).insertionSort vmafKeyLe) :=
        List.take_sublist _ _
      have hps : (((frame_data.filter (isProblemFrame threshold)).insertionSort
          vmafKeyLe).take limit).Pairwise vmafKeyLe := hsorted.sublist htake
      exact List.pairwise_map.mpr hps
    · rw [hgpf, List.length_take, hlen]
    · rw [hgpf]
      exact ((List.take_sublist _ _).subperm).trans hperm.subperm
    · intro hle
      rw [hgpf]
      have : ((frame_data.filter (isProblemFrame threshold)).insertionSort
          vmafKeyLe).take limit = (frame_data.filter
            (isProblemFrame threshold)).insertionSort vmafKeyLe := by
        apply List.take_of_length_le
        rw [hlen]
        exact hle
      rw [this]
      exact hperm

/-- C9, witness at the claim's example: scores 80, 60, 95, 40, 70 with
threshold 70 and limit 10 yield exactly the frames scoring 40 and 60, in
that order (70 itself excluded). -/
theorem c9_witness :
    ((c9Frames.filter (isProblemFrame 70)).length ≤ 10 ∧
        (get_problem_frames c9Frames 70 10).Perm
          (c9Frames.filter (isProblemFrame 70))) ∧
      (get_problem_frames c9Frames 70 10).map (fun f => f.vmaf) =
        [some 40, some 60] :=
  ⟨⟨by decide, (c9_problem_frames c9Frames 70 10).2.2.2.2 (by decide)⟩, rfl⟩

/-! ## State-machine helper lemmas -/

lemma find?_map_of_id {g : Assessment → Assessment} (hg : ∀ a, (g a).id = a.id)
    (id2 : Nat) (l : List Assessment) :
    (l.map g).find? (fun a => decide (a.id = id2)) =
      (l.find? (fun a => decide (a.id = id2))).map g := by
  induction l with
  | nil => rfl
  | cons a l ih =>
    by_cases hp : a.id = id2
    · rw [List.map_cons, List.find?_cons_of_pos, List.find?_cons_of_pos] <;>
        simp [hg, hp]
    · rw [List.map_cons, List.find?_cons_of_neg, List.find?_cons_of_neg, ih] <;>
        simp [hg, hp]

/-- Looking a row up after an id-preserving row update. -/
lemma findAssessment_update (s : ServiceState) (id id2 : Nat)
    (f : Assessment → Assessment) (hf : ∀ a, (f a).id = a.id) :
    findAssessment (updateAssessment s id f) id2 =
      (findAssessment s id2).map (fun a => if a.id = id then f a else a) := by
  unfold findAssessment updateAssessment
  exact find?_map_of_id (fun a => by by_cases h : a.id = id <;> simp [h, hf]) id2 _

lemma findAssessment_mem {s : ServiceState} {id : Nat} {a : Assessment}
    (h : findAssessment s id = some a) : a ∈ s.assessments ∧ a.id = id := by
  unfold findAssessment at h
  refine ⟨List.mem_of_find?_eq_some h, ?_⟩
  have := List.find?_some h
  simpa using this

/-- Destructor for a successful `start_assessment`. -/
lemma start_assessment_ok {s : ServiceState} {id : Nat} {s2 : ServiceState}
    (h : start_assessment s id = .ok s2) :
    ∃ a, s.running_tasks.length < s.max_concurrent ∧
      findAssessment s id = some a ∧ a.status ≠ .running ∧
      s2 = { updateAssessment s id
          (fun r => { r with status := .running, started_at := some s.clock }) with
        running_tasks := s.running_tasks ++ [id], clock := s.clock + 1 } := by
  unfold start_assessment at h
  by_cases h1 : s.max_concurrent ≤ s.running_tasks.length
  · rw [if_pos h1] at h
    simp at h
  · rw [if_neg h1] at h
    rcases hf : findAssessment s id with _ | a
    · rw [hf] at h
      simp at h
    · rw [hf] at h
      dsimp only at h
      by_cases h2 : a.status = .running
      · rw [if_pos h2] at h
        simp at h
      · rw [if_neg h2] at h
        exact ⟨a, by omega, rfl, h2, (Except.ok.inj h).symm⟩

/-- Destructor for a successful `cancel_assessment`. -/
lemma cancel_assessment_ok {s : ServiceState} {id : Nat} {s2 : ServiceState}
    (h : cancel_assessment s id = .ok s2) :
    ∃ a, findAssessment s id = some a ∧ a.status = .running ∧
      s2 = { updateAssessment s id (fun r => { r with status := .cancelled }) with
        running_tasks := s.running_tasks.filter (fun t => t ≠ id) } := by
  unfold cancel_assessment at h
  rcases hf : findAssessment s id with _ | a
  · rw [hf] at h
    simp at h
  · rw [hf] at h
    dsimp only at h
    by_cases h2 : a.status ≠ .running
    · rw [if_pos h2] at h
      simp at h
    · rw [if_neg h2] at h
      push_neg at h2
      exact ⟨a, rfl, h2, (Except.ok.inj h).symm⟩

/-! ## The service invariant -/

lemma inv_init (cap : Nat) : SvcInv (initState cap) := by
  constructor <;> simp [initState]

/-- Under the invariant, the persisted running-status count equals the
live-task count the code's concurrency gate measures. -/
lemma runningCount_eq {s : ServiceState} (h : SvcInv s) :
    runningCount s = s.running_tasks.length := by
  classical
  have hfil := s.assessments.filter_sublist (p := fun a => decide (a.status = .running))
  have hnd1 : ((s.assessments.filter
      (fun a => decide (a.status = .running))).map (fun a => a.id)).Nodup := by
    have hpw : (s.assessments.filter
        (fun a => decide (a.status = .running))).Pairwise (fun a b => a.id < b.id) :=
      h.ids_sorted.sublist hfil
    have := List.pairwise_map.mpr (hpw.imp (fun hab => hab))
    exact (List.pairwise_map.mpr (hpw.imp (fun hab => Nat.ne_of_lt hab)))
  have hmem : ∀ i, i ∈ ((s.assessments.filter
      (fun a => decide (a.status = .running))).map (fun a => a.id)) ↔
      i ∈ s.running_tasks := by
    intro i
    constructor
    · intro hi
      rcases List.mem_map.mp hi with ⟨a, ha, haid⟩
      have hmem := List.mem_of_mem_filter ha
      have hrun : a.status = .running := by
        have := List.of_mem_filter ha
        simpa using this
      have := (h.sync a hmem).mp hrun
      rwa [haid] at this
    · intro hi
      rcases h.tex i hi with ⟨a, ha, haid⟩
      have hrun : a.status = .running := (h.sync a ha).mpr (haid ▸ hi)
      refine List.mem_map.mpr ⟨a, ?_, haid⟩
      exact List.mem_filter.mpr ⟨ha, by simpa using hrun⟩
  have hperm : ((s.assessments.filter
      (fun a => decide (a.status = .running))).map (fun a => a.id)).Perm
      s.running_tasks :=
    (List.perm_ext_iff_of_nodup hnd1 h.tnd).mpr hmem
  calc runningCount s
      = (s.assessments.filter (fun a => decide (a.status = .running))).length := by
        unfold runningCount
        exact s.assessments.countP_eq_length_filter _
    _ = ((s.assessments.filter
          (fun a => decide (a.status = .running))).map (fun a => a.id)).length := by
        rw [List.length_map]
    _ = s.running_tasks.length := hperm.length_eq

/-- Generic preservation: an id-preserving row update that leaves no row
`running` for the touched id, together with dropping the id from the
task table, keeps the invariant.  This covers cancel, completion and
failure commits. -/
lemma inv_finishRow {s : ServiceState} (h : SvcInv s) (id : Nat) (c : Nat)
    (f : Assessment → Assessment)
    (hfid : ∀ a, (f a).id = a.id)
    (hfst : ∀ a, (f a).status ≠ .running) :
    SvcInv { updateAssessment s id f with
      running_tasks := s.running_tasks.filter (fun t => t ≠ id), clock := c } := by
  constructor
  · exact List.pairwise_map.mpr (h.ids_sorted.imp (by
      intro a b hab
      by_cases ha : a.id = id <;> by_cases hb : b.id = id <;>
        simp [ha, hb, hfid] <;> omega))
  · intro a ha
    rcases List.mem_map.mp ha with ⟨r, hr, hra⟩
    have := h.ids_lt r hr
    subst hra
    by_cases hc : r.id = id <;> simp [hc, hfid, updateAssessment] <;> omega
  · intro a ha
    rcases List.mem_map.mp ha with ⟨r, hr, hra⟩
    subst hra
    by_cases hc : r.id = id
    · rw [if_pos hc]
      constructor
      · intro hst
        exact absurd hst (hfst r)
      · intro hmem
        have := List.of_mem_filter hmem
        simp [hfid, hc] at this
    · rw [if_neg hc]
      constructor
      · intro hst
        refine List.mem_filter.mpr ⟨(h.sync r hr).mp hst, by simpa using hc⟩
      · intro hmem
        exact (h.sync r hr).mpr (List.mem_of_mem_filter hmem)
  · intro i hi
    have hi0 := List.mem_of_mem_filter hi
    rcases h.tex i hi0 with ⟨a, ha, haid⟩
    by_cases hc : a.id = id
    · refine ⟨f a, List.mem_map.mpr ⟨a, ha, by rw [if_pos hc]⟩, by rw [hfid, haid]⟩
    · refine ⟨a, List.mem_map.mpr ⟨a, ha, by rw [if_neg hc]⟩, haid⟩
  · exact h.tnd.filter _
  · exact le_trans (s.running_tasks.length_filter_le _) h.cap

/-- `start_assessment` preserves the invariant. -/
lemma inv_start {s : ServiceState} {id : Nat} {s2 : ServiceState}
    (h : SvcInv s) (hok : start_assessment s id = .ok s2) : SvcInv s2 := by
  rcases start_assessment_ok hok with ⟨a, hlt, hfind, hnr, rfl⟩
  have hamem := findAssessment_mem hfind
  have hidnot : id ∉ s.running_tasks := by
    intro hmem
    exact hnr ((h.sync a hamem.1).mpr (hamem.2 ▸ hmem))
  constructor
  · exact List.pairwise_map.mpr (h.ids_sorted.imp (by
      intro x y hxy
      by_cases hx : x.id = id <;> by_cases hy : y.id = id <;>
        simp [hx, hy] <;> omega))
  · intro x hx
    rcases List.mem_map.mp hx with ⟨r, hr, hrx⟩
    have := h.ids_lt r hr
    subst hrx
    by_cases hc : r.id = id <;> simp [hc, updateAssessment] <;> omega
  · intro x hx
    rcases List.mem_map.mp hx with ⟨r, hr, hrx⟩
    subst hrx
    by_cases hc : r.id = id
    · rw [if_pos hc]
      simp [hc]
    · rw [if_neg hc]
      have := h.sync r hr
      simp only [List.mem_append, List.mem_singleton]
      constructor
      · intro hst
        exact Or.inl (this.mp hst)
      · intro hmem
        rcases hmem with hmem | hmem
        · exact this.mpr hmem
        · exact absurd hmem hc
  · intro i hi
    rcases List.mem_append.mp hi with hi | hi
    · rcases h.tex i hi with ⟨r, hr, hrid⟩
      by_cases hc : r.id = id
      · refine ⟨{ r with status := .running, started_at := some s.clock },
          List.mem_map.mpr ⟨r, hr, by rw [if_pos hc]⟩, hrid⟩
      · refine ⟨r, List.mem_map.mpr ⟨r, hr, by rw [if_neg hc]⟩, hrid⟩
    · rcases List.mem_singleton.mp hi with rfl
      refine ⟨{ a with status := .running, started_at := some s.clock },
        List.mem_map.mpr ⟨a, hamem.1, by rw [if_pos hamem.2]⟩, hamem.2⟩
  · rw [List.nodup_append]
    exact ⟨h.tnd, List.nodup_singleton _, by
      intro x hx hxs
      rcases List.mem_singleton.mp hxs with rfl
      exact hidnot hx⟩
  · show (s.running_tasks ++ [id]).length ≤ s.max_concurrent
    rw [List.length_append, List.length_singleton]
    omega

/-- `create_assessment` preserves the invariant. -/
lemma inv_create {s : ServiceState} (h : SvcInv s) (b : Option Nat) (tf : Int) :
    SvcInv (create_assessment s b tf) := by
  have hnew : ∀ i ∈ s.running_tasks, i ≠ s.next_id := by
    intro i hi
    rcases h.tex i hi with ⟨a, ha, haid⟩
    have := h.ids_lt a ha
    omega
  unfold create_assessment
  constructor
  · show List.Pairwise _ (s.assessments ++ _)
    rw [List.pairwise_append]
    refine ⟨h.ids_sorted, List.pairwise_singleton _ _, ?_⟩
    intro a ha x hx
    rcases List.mem_singleton.mp hx with rfl
    exact h.ids_lt a ha
  · intro a ha
    rcases List.mem_append.mp ha with ha | ha
    · have := h.ids_lt a ha
      show a.id < s.next_id + 1
      omega
    · rcases List.mem_singleton.mp ha with rfl
      show s.next_id < s.next_id + 1
      omega
  · intro a ha
    rcases List.mem_append.mp ha with ha | ha
    · exact h.sync a ha
    · rcases List.mem_singleton.mp ha with rfl
      constructor
      · intro hst
        simp at hst
      · intro hmem
        exact absurd rfl (hnew _ hmem)
  · intro i hi
    rcases h.tex i hi with ⟨a, ha, haid⟩
    exact ⟨a, List.mem_append.mpr (Or.inl ha), haid⟩
  · exact h.tnd
  · exact h.cap

/-- `_trigger_next_batch_task` preserves the invariant. -/
lemma inv_trigger {s : ServiceState} (h : SvcInv s) (b : Nat) :
    SvcInv (trigger_next_batch_task s b) := by
  unfold trigger_next_batch_task
  rcases firstPendingInBatch s b with _ | a
  · exact h
  · dsimp only
    rcases hok : start_assessment s a.id with e | s2
    · exact h
    · exact inv_start h hok

/-- The completion commit preserves the invariant. -/
lemma inv_complete {s : ServiceState} (h : SvcInv s) (id : Nat) (r : QualityResult)
    (path : Nat) : SvcInv (task_complete_step s id r path) := by
  unfold task_complete_step
  have h1 := inv_finishRow h id (s.clock + 1)
    (fun a => applyCompleteRow a r path s.clock)
    (fun a => rfl) (fun a => by simp [applyCompleteRow])
  rcases (findAssessment s id).bind (fun a => a.batch_id) with _ | bb
  · exact h1
  · exact inv_trigger h1 bb

/-- The failure commit preserves the invariant. -/
lemma inv_fail {s : ServiceState} (h : SvcInv s) (id : Nat) (msg : Nat) :
    SvcInv (task_fail_step s id msg) := by
  unfold task_fail_step
  have h1 := inv_finishRow h id s.clock
    (fun a => applyFailRow a msg)
    (fun a => rfl) (fun a => by simp [applyFailRow])
  rcases (findAssessment s id).bind (fun a => a.batch_id) with _ | bb
  · exact h1
  · exact inv_trigger h1 bb

/-- The progress commit preserves the invariant. -/
lemma inv_progress {s : ServiceState} (h : SvcInv s) (id : Nat) (cf : Int) (p : ℚ) :
    SvcInv (task_progress_step s id cf p) := by
  constructor
  · exact List.pairwise_map.mpr (h.ids_sorted.imp (by
      intro x y hxy
      by_cases hx : x.id = id <;> by_cases hy : y.id = id <;>
        simp [hx, hy, applyProgressRow] <;> omega))
  · intro a ha
    rcases List.mem_map.mp ha with ⟨r, hr, hra⟩
    have := h.ids_lt r hr
    subst hra
    by_cases hc : r.id = id <;>
      simp [hc, applyProgressRow, updateAssessment, task_progress_step] <;> omega
  · intro a ha
    rcases List.mem_map.mp ha with ⟨r, hr, hra⟩
    subst hra
    have := h.sync r hr
    by_cases hc : r.id = id <;>
      simp [hc, applyProgressRow, task_progress_step, updateAssessment, this]
  · intro i hi
    rcases h.tex i hi with ⟨a, ha, haid⟩
    by_cases hc : a.id = id
    · refine ⟨applyProgressRow a cf p,
        List.mem_map.mpr ⟨a, ha, by rw [if_pos hc]⟩, haid⟩
    · refine ⟨a, List.mem_map.mpr ⟨a, ha, by rw [if_neg hc]⟩, haid⟩
  · exact h.tnd
  · exact h.cap

/-- `cancel_assessment` preserves the invariant. -/
lemma inv_cancel {s : ServiceState} {id : Nat} {s2 : ServiceState}
    (h : SvcInv s) (hok : cancel_assessment s id = .ok s2) : SvcInv s2 := by
  rcases cancel_assessment_ok hok with ⟨a, hfind, hrun, rfl⟩
  exact inv_finishRow h id s.clock _ (fun a => rfl)
    (fun a => by simp)

/-- `start_batch_assessment` preserves the invariant. -/
lemma inv_startBatch {s : ServiceState} {b : Nat} {s2 : ServiceState}
    (h : SvcInv s) (hok : start_batch_assessment s b = .ok s2) : SvcInv s2 := by
  unfold start_batch_assessment at hok
  rcases hfp : firstPendingInBatch s b with _ | a
  · rw [hfp] at hok
    dsimp only at hok
    rw [Except.ok.injEq] at hok
    exact hok ▸ h
  · rw [hfp] at hok
    exact inv_start h hok

/-- Every atomic operational step preserves the invariant. -/
lemma inv_step {s s2 : ServiceState} (h : SvcInv s) (hs : Step s s2) : SvcInv s2 := by
  cases hs with
  | create b tf => exact inv_create h b tf
  | start id s2 hok => exact inv_start h hok
  | cancel id s2 hok => exact inv_cancel h hok
  | startBatch b s2 hok => exact inv_startBatch h hok
  | taskProgress id cf p hid => exact inv_progress h id cf p
  | taskComplete id r path hid => exact inv_complete h id r path
  | taskFail id msg hid => exact inv_fail h id msg
  | lateTrigger b => exact inv_trigger h b

/-- Invariance along reachability. -/
lemma inv_reachable {cap : Nat} {s : ServiceState} (h : Reachable cap s) : SvcInv s := by
  induction h with
  | refl => exact inv_init cap
  | tail h1 h2 ih => exact inv_step ih h2

/-! ## C3: concurrency cap -/

/-- The atomic `start_assessment` is exactly the gate, the
validate-and-commit segment and the registration run back to back with
nothing interleaved: the fine-grained segments compose to the atomic
operation. -/
lemma start_assessment_segments (s : ServiceState) (id : Nat) :
    start_assessment s id =
      (start_gate s).bind (fun _ =>
        Except.map (fun s1 => start_register s1 id) (start_validate_commit s id)) := by
  unfold start_assessment start_gate start_validate_commit start_register
  by_cases hc : s.max_concurrent ≤ s.running_tasks.length
  · rw [if_pos hc, if_pos hc]
    rfl
  · rw [if_neg hc, if_neg hc]
    rcases hfind : findAssessment s id with _ | a
    · rfl
    · dsimp only
      by_cases hr : a.status = .running
      · rw [if_pos hr, if_pos hr]
        rfl
      · rw [if_neg hr, if_neg hr]
        rfl

/-- C3: the concurrency-cap invariant fails under the program's real
interleaving.  `start_assessment`'s gate (line 61) is separated from its
task-table registration (line 88) by the awaits at lines 66 and 82, and
it counts live tasks, not `running` rows.  Along a reachable
fine-grained trace with cap 1: the first `start` call commits its job to
`running` and is parked before registering, so the persisted running
count sits at the cap (`c3f2`); a second `start` call invoked there
passes the gate instead of failing with the concurrency-limit error
(the step to `c3f3` parks it as a new in-flight call); and after both
calls finish, two jobs are `running` under a cap of 1. -/
theorem c3_cap_race :
    FReachable 1 c3f2 ∧
      c3f2.svc.max_concurrent ≤ runningCount c3f2.svc ∧
      FStep c3f2 c3f3 ∧
      c3f3.calls = c3f2.calls ++ [⟨2, StartPhase.gated⟩] ∧
      FReachable 1 c3f6 ∧
      runningCount c3f6.svc = 2 ∧
      c3f6.svc.max_concurrent = 1 := by
  have h01 : FStep (finitState 1) ⟨c3s1, []⟩ := FStep.create (finitState 1) none 10
  have h12 : FStep ⟨c3s1, []⟩ ⟨c3s2, []⟩ := FStep.create ⟨c3s1, []⟩ none 10
  have h23 : FStep ⟨c3s2, []⟩ c3f1 := FStep.gatePass ⟨c3s2, []⟩ 1 rfl
  have h34 : FStep c3f1 c3f2 := FStep.resumeCommit c3f1 [] [] 1 c3m1 rfl rfl
  have h45 : FStep c3f2 c3f3 := FStep.gatePass c3f2 2 rfl
  have h56 : FStep c3f3 c3f4 :=
    FStep.resumeRegister c3f3 [] [⟨2, StartPhase.gated⟩] 1 rfl
  have h67 : FStep c3f4 c3f5 := FStep.resumeCommit c3f4 [] [] 2 c3m2 rfl rfl
  have h78 : FStep c3f5 c3f6 := FStep.resumeRegister c3f5 [] [] 2 rfl
  have hr2 : FReachable 1 c3f2 :=
    Relation.ReflTransGen.tail (Relation.ReflTransGen.tail
      (Relation.ReflTransGen.tail (Relation.ReflTransGen.tail
        Relation.ReflTransGen.refl h01) h12) h23) h34
  refine ⟨hr2, by decide, h45, by decide, ?_, by decide, by decide⟩
  exact Relation.ReflTransGen.tail (Relation.ReflTransGen.tail
    (Relation.ReflTransGen.tail (Relation.ReflTransGen.tail hr2 h45) h56) h67) h78

/-! ## C1: terminal states -/

/-- C1, counterexample: a job driven to `completed` along a reachable
trace is restarted by `start_assessment`, which transitions it back to
`running` — `start` only rejects jobs that are currently `running`, so a
terminal state is not preserved by subsequent operations. -/
theorem c1_counterexample :
    Reachable 3 c1s3 ∧
      (findAssessment c1s3 1).map (fun a => a.status) = some .completed ∧
      (start_assessment c1s3 1).map
        (fun s4 => (findAssessment s4 1).map (fun a => a.status)) =
        .ok (some .running) := by
  refine ⟨?_, rfl, rfl⟩
  have h01 : Step c1s0 c1s1 := Step.create c1s0 none 10
  have h12 : Step c1s1 c1s2 := Step.start c1s1 1 c1s2 rfl
  have h23 : Step c1s2 c1s3 := Step.taskComplete c1s2 1 c1Result 7 (by decide)
  exact Relation.ReflTransGen.tail (Relation.ReflTransGen.tail
    (Relation.ReflTransGen.tail Relation.ReflTransGen.refl h01) h12) h23

/-- C1, amended: `cancel` does reject a job in a terminal state with
`InvalidState` and changes nothing, but `start` rejects only a job that
is currently `running`: on any other status — pending or terminal — it
succeeds under the cap and re-transitions the job to `running` with a
fresh start stamp; and the driving task's row writes are applied
regardless of the row's current status. -/
theorem c1_amended :
    (∀ (s : ServiceState) (id : Nat) (a : Assessment),
      findAssessment s id = some a → a.status ≠ .running →
      s.running_tasks.length < s.max_concurrent →
      ∃ s2, start_assessment s id = .ok s2 ∧
        findAssessment s2 id =
          some { a with status := .running, started_at := some s.clock }) ∧
      (∀ (s : ServiceState) (id : Nat) (a : Assessment),
        findAssessment s id = some a → a.status.isTerminal = true →
        cancel_assessment s id = .error .invalidState) ∧
      (∀ (a : Assessment) (cf : Int) (p : ℚ),
        (applyProgressRow a cf p).status = a.status ∧
          (applyProgressRow a cf p).progress = p) ∧
      (∀ (a : Assessment) (r : QualityResult) (path t : Nat),
        (applyCompleteRow a r path t).status = .completed) := by
  refine ⟨?_, ?_, fun a cf p => ⟨rfl, rfl⟩, fun a r path t => rfl⟩
  · intro s id a hfind hnr hlt
    have hid := (findAssessment_mem hfind).2
    refine ⟨{ updateAssessment s id
        (fun r => { r with status := .running, started_at := some s.clock }) with
      running_tasks := s.running_tasks ++ [id], clock := s.clock + 1 }, ?_, ?_⟩
    · unfold start_assessment
      rw [if_neg (by omega), hfind]
      dsimp only
      rw [if_neg hnr]
    · show findAssessment (updateAssessment s id
        (fun r => { r with status := .running, started_at := some s.clock })) id = _
      rw [findAssessment_update s id id
        (fun r => { r with status := .running, started_at := some s.clock })
        (fun r => rfl), hfind]
      simp [hid]
  · intro s id a hfind hterm
    have hnr : a.status ≠ .running := by
      intro hr
      rw [hr] at hterm
      simp [TaskStatus.isTerminal] at hterm
    unfold cancel_assessment
    rw [hfind]
    dsimp only
    rw [if_pos hnr]

/-- C1, witness for the amended theorem: restarting the concrete
completed job of the C1 trace succeeds and yields a `running` row. -/
theorem c1_witness :
    (findAssessment c1s3 1 = some c1DoneRow ∧
        c1DoneRow.status ≠ .running ∧
        c1s3.running_tasks.length < c1s3.max_concurrent) ∧
      ∃ s2, start_assessment c1s3 1 = .ok s2 ∧
        findAssessment s2 1 =
          some { c1DoneRow with
                 status := TaskStatus.running
                 started_at := some c1s3.clock } :=
  ⟨⟨by decide, by decide, by decide⟩,
    c1_amended.1 c1s3 1 c1DoneRow (by decide) (by decide) (by decide)⟩

/-! ## C2: late writes to a cancelled job -/

/-- C2: the driving loop's write handlers carry no status guard, so a
late event delivered for a job that has already been cancelled is not a
no-op: a late progress event overwrites the persisted progress with the
stale value (both at the row level and through the progress commit on a
full service state), and a late completion write resurrects the
cancelled job to `completed`. -/
theorem c2_unguarded_late_writes :
    (applyProgressRow c2Job 50 50).progress = 50 ∧
      (applyProgressRow c2Job 50 50).status = .cancelled ∧
      applyProgressRow c2Job 50 50 ≠ c2Job ∧
      (findAssessment (task_progress_step c2State 1 50 50) 1).map
        (fun a => (a.status, a.progress)) = some (.cancelled, 50) ∧
      (applyCompleteRow c2Job c1Result 7 9).status = .completed := by
  refine ⟨rfl, rfl, ?_, by decide, rfl⟩
  intro h
  have := congrArg (fun a => a.progress) h
  simp [applyProgressRow, c2Job] at this

/-! ## C7: batch lemmas -/

lemma isTerminal_ne_running {st : TaskStatus} (h : st.isTerminal = true) :
    st ≠ .running := by
  cases st <;> simp [TaskStatus.isTerminal] at h ⊢

/-- `find?` returns the element at the first position satisfying the
predicate. -/
lemma find?_eq_getElem {α : Type} (p : α → Bool) (l : List α) (i : Nat)
    (hi : i < l.length) (hp : p l[i] = true)
    (hfirst : ∀ j (hj : j < l.length), j < i → p l[j] = false) :
    l.find? p = some l[i] := by
  induction l generalizing i with
  | nil => simp at hi
  | cons a t ih =>
    cases i with
    | zero =>
      rw [List.find?_cons_of_pos]
      · simp
      · simpa using hp
    | succ i =>
      have ha : p a = false := by
        have := hfirst 0 (by simp) (Nat.succ_pos i)
        simpa using this
      rw [List.find?_cons_of_neg _ (by simp [ha])]
      have hi' : i < t.length := by simpa using hi
      have := ih i hi' (by simpa using hp) ?_
      · simpa using this
      · intro j hj hji
        have := hfirst (j + 1) (by simpa using hj) (by omega)
        simpa using this

/-- With rows in strictly increasing id order, `find?` hands back the
matching row of least id. -/
lemma find?_min_id {p : Assessment → Bool} {l : List Assessment} {a : Assessment}
    (hsort : l.Pairwise (fun x y => x.id < y.id)) (hfind : l.find? p = some a) :
    ∀ x ∈ l, p x = true → a.id ≤ x.id := by
  induction l with
  | nil => simp at hfind
  | cons b t ih =>
    rcases hpb : p b with _ | _
    · rw [List.find?_cons_of_neg _ (by simp [hpb])] at hfind
      intro x hx hpx
      rcases List.mem_cons.mp hx with rfl | hx
      · rw [hpx] at hpb
        cases hpb
      · exact ih (List.pairwise_cons.mp hsort).2 hfind x hx hpx
    · rw [List.find?_cons_of_pos _ (by simp [hpb])] at hfind
      rcases Option.some.inj hfind with rfl
      intro x hx hpx
      rcases List.mem_cons.mp hx with rfl | hx
      · exact le_refl _
      · exact le_of_lt ((List.pairwise_cons.mp hsort).1 x hx)

/-- A successful `start` changes no other job's row. -/
lemma start_changes_only {s s2 : ServiceState} {id : Nat}
    (hok : start_assessment s id = .ok s2) :
    ∀ id2, id2 ≠ id → findAssessment s2 id2 = findAssessment s id2 := by
  intro id2 hne
  rcases start_assessment_ok hok with ⟨a, hlt, hfind, hnr, rfl⟩
  show findAssessment (updateAssessment s id
    (fun r => { r with status := .running, started_at := some s.clock })) id2 = _
  rw [findAssessment_update s id id2
    (fun r => { r with status := .running, started_at := some s.clock })
    (fun r => rfl)]
  rcases hf : findAssessment s id2 with _ | a2
  · rfl
  · have := (findAssessment_mem hf).2
    dsimp only [Option.map]
    rw [if_neg (by rw [this]; exact hne)]

/-- The batch hook is a no-op when the batch has no pending job left. -/
lemma trigger_no_pending {s : ServiceState} {b : Nat}
    (h : firstPendingInBatch s b = none) : trigger_next_batch_task s b = s := by
  unfold trigger_next_batch_task
  rw [h]

/-- The batch hook starts exactly the job `firstPendingInBatch` found
when that start succeeds. -/
lemma trigger_starts_first {s s2 : ServiceState} {b : Nat} {a : Assessment}
    (hfp : firstPendingInBatch s b = some a)
    (hok : start_assessment s a.id = .ok s2) :
    trigger_next_batch_task s b = s2 := by
  unfold trigger_next_batch_task
  rw [hfp]
  dsimp only
  rw [hok]

/-- Shape is untouched by status-preserving row maps. -/
lemma batchShape_map {l : List Assessment} {g : Assessment → Assessment}
    (hg : ∀ a, (g a).status = a.status) (h : BatchShape l) : BatchShape (l.map g) := by
  rcases h with ⟨k, hk, hz⟩
  have hstat : ∀ (i : Nat) (hi : i < (l.map g).length) (hi2 : i < l.length),
      (l.map g)[i].status = l[i].status := by
    intro i hi hi2
    simp [hg]
  refine ⟨k, by simpa using hk, ?_⟩
  intro i hi
  have hi' : i < l.length := by simpa using hi
  refine ⟨fun hik => ?_, fun hik => ?_, fun hik => ?_⟩
  · rw [hstat i hi hi']
    exact (hz i hi').1 hik
  · rw [hstat i hi hi']
    exact (hz i hi').2.1 hik
  · rw [hstat i hi hi']
    exact (hz i hi').2.2 hik

/-- With strictly increasing ids, two members with the same id coincide. -/
lemma mem_id_inj {l : List Assessment} (hws : l.Pairwise (fun x y => x.id < y.id))
    {a b : Assessment} (ha : a ∈ l) (hb : b ∈ l) (hid : a.id = b.id) : a = b := by
  induction l with
  | nil => simp at ha
  | cons x t ih =>
    rcases List.pairwise_cons.mp hws with ⟨hx, ht⟩
    rcases List.mem_cons.mp ha with rfl | ha2 <;> rcases List.mem_cons.mp hb with rfl | hb2
    · rfl
    · have := hx b hb2
      omega
    · have := hx a ha2
      omega
    · exact ih ht ha2 hb2

/-- Under the invariant, looking a member row up by its id returns it. -/
lemma findAssessment_of_mem {s : ServiceState} (hinv : SvcInv s) {a : Assessment}
    (ha : a ∈ s.assessments) : findAssessment s a.id = some a := by
  have hsome : (s.assessments.find? (fun r => decide (r.id = a.id))).isSome :=
    List.find?_isSome.mpr ⟨a, ha, by simp⟩
  obtain ⟨a2, ha2⟩ := Option.isSome_iff_exists.mp hsome
  have hm := List.mem_of_find?_eq_some ha2
  have hp : a2.id = a.id := by
    have := List.find?_some ha2
    simpa using this
  show s.assessments.find? (fun r => decide (r.id = a.id)) = some a
  rw [ha2]
  exact congrArg some (mem_id_inj hinv.ids_sorted hm ha hp)

/-- With strictly increasing ids, distinct positions carry distinct ids. -/
lemma ids_pos_ne {l : List Assessment} (hws : l.Pairwise (fun x y => x.id < y.id))
    {i j : Nat} (hi : i < l.length) (hj : j < l.length) (hne : i ≠ j) :
    l[i].id ≠ l[j].id := by
  rw [List.pairwise_iff_getElem] at hws
  rcases Nat.lt_or_ge i j with h | h
  · exact Nat.ne_of_lt (hws i j hi hj h)
  · have := hws j i hj hi (by omega)
    omega

/-- In a batch run, a live task's job occupies the unique running
position: the shape boundary.  Everything before it is terminal,
everything after pending, no other row carries its id, and it is the
only live task. -/
lemma batch_running_unique {s : ServiceState} (h : BatchInv s) {id : Nat}
    (hid : id ∈ s.running_tasks) :
    ∃ k, ∃ hk : k < s.assessments.length,
      s.assessments[k].id = id ∧ s.assessments[k].status = .running ∧
      (∀ (j : Nat) (hj : j < s.assessments.length), j ≠ k →
        s.assessments[j].id ≠ id ∧ s.assessments[j].status ≠ .running) ∧
      (∀ (i : Nat) (hi : i < s.assessments.length),
        (i < k → (s.assessments[i].status).isTerminal = true) ∧
        (k < i → s.assessments[i].status = .pending)) ∧
      (∀ t ∈ s.running_tasks, t = id) := by
  obtain ⟨kk, hkk, hz⟩ := h.shape
  obtain ⟨a, ha, haid⟩ := h.base.tex id hid
  have harun : a.status = .running := (h.base.sync a ha).mpr (by rw [haid]; exact hid)
  obtain ⟨m, hm, hma⟩ := List.mem_iff_getElem.mp ha
  have hmk : m = kk := by
    rcases Nat.lt_trichotomy m kk with hlt | heq | hgt
    · have := (hz m hm).1 hlt
      rw [hma, harun] at this
      simp [TaskStatus.isTerminal] at this
    · exact heq
    · have := (hz m hm).2.2 hgt
      rw [hma, harun] at this
      exact absurd this (by decide)
  subst hmk
  have hother : ∀ (j : Nat) (hj : j < s.assessments.length), j ≠ m →
      s.assessments[j].status ≠ .running := by
    intro j hj hne
    rcases Nat.lt_trichotomy j m with hlt | heq | hgt
    · exact isTerminal_ne_running ((hz j hj).1 hlt)
    · exact absurd heq hne
    · rw [(hz j hj).2.2 hgt]
      decide
  have hotherid : ∀ (j : Nat) (hj : j < s.assessments.length), j ≠ m →
      s.assessments[j].id ≠ id := by
    intro j hj hne heq
    have hrun : s.assessments[j].status = .running :=
      (h.base.sync _ (List.getElem_mem hj)).mpr (by rw [heq]; exact hid)
    exact hother j hj hne hrun
  have halltasks : ∀ t ∈ s.running_tasks, t = id := by
    intro t ht
    obtain ⟨b, hb, hbid⟩ := h.base.tex t ht
    have hbrun : b.status = .running := (h.base.sync b hb).mpr (by rw [hbid]; exact ht)
    obtain ⟨j, hj, hjb⟩ := List.mem_iff_getElem.mp hb
    by_cases hne : j = m
    · subst hne
      rw [← hbid, ← hjb, hma, haid]
    · exact absurd (by rw [hjb]; exact hbrun) (hother j hj hne)
  refine ⟨m, hm, by rw [hma, haid], by rw [hma, harun], ?_, ?_, halltasks⟩
  · intro j hj hne
    exact ⟨hotherid j hj hne, hother j hj hne⟩
  · intro i hi
    exact ⟨(hz i hi).1, (hz i hi).2.2⟩

lemma zoneSplit_shape {l : List Assessment} {k : Nat} (hk : k ≤ l.length)
    (hz : ZoneSplit l k) : BatchShape l := by
  refine ⟨k, hk, ?_⟩
  intro i hi
  exact ⟨(hz i hi).1, fun hik => Or.inr ((hz i hi).2 (by omega)),
    fun hki => (hz i hi).2 (by omega)⟩

/-- Committing a terminal status at the unique running position `k`
turns the run into a zone split at `k + 1`. -/
lemma zoneSplit_update {l : List Assessment} {k : Nat} {g : Assessment → Assessment}
    (hk : k < l.length)
    (hgk : ((g l[k]).status).isTerminal = true)
    (hgother : ∀ (j : Nat) (hj : j < l.length), j ≠ k → (g l[j]).status = l[j].status)
    (hzones : ∀ (i : Nat) (hi : i < l.length),
      (i < k → (l[i].status).isTerminal = true) ∧ (k < i → l[i].status = .pending)) :
    ZoneSplit (l.map g) (k + 1) := by
  intro i hi
  have hi' : i < l.length := by simpa using hi
  have hmap : (l.map g)[i].status = (g l[i]).status := by simp
  constructor
  · intro hik
    rcases Nat.lt_or_ge i k with hlt | hge
    · rw [hmap, hgother i hi' (by omega)]
      exact (hzones i hi').1 hlt
    · have hik2 : i = k := by omega
      subst hik2
      rw [hmap]
      exact hgk
  · intro hki
    rw [hmap, hgother i hi' (by omega)]
    exact (hzones i hi').2 (by omega)

/-- Starting the row at the zone boundary restores the batch shape. -/
lemma shape_start_update {l : List Assessment} {k : Nat} {g : Assessment → Assessment}
    (hk : k < l.length)
    (hgk : (g l[k]).status = .running)
    (hgother : ∀ (j : Nat) (hj : j < l.length), j ≠ k → (g l[j]).status = l[j].status)
    (hzone : ZoneSplit l k) :
    BatchShape (l.map g) := by
  refine ⟨k, by simpa using le_of_lt hk, ?_⟩
  intro i hi
  have hi' : i < l.length := by simpa using hi
  have hmap : (l.map g)[i].status = (g l[i]).status := by simp
  refine ⟨fun hik => ?_, fun hik => ?_, fun hki => ?_⟩
  · rw [hmap, hgother i hi' (by omega)]
    exact (hzone i hi').1 hik
  · subst hik
    rw [hmap]
    exact Or.inl hgk
  · rw [hmap, hgother i hi' (by omega)]
    exact (hzone i hi').2 (by omega)

/-- On a zone-split batch-0 run, `firstPendingInBatch` is the row at the
boundary, or nothing once every job is terminal. -/
lemma firstPending_of_zoneSplit {s : ServiceState}
    (hb : ∀ a ∈ s.assessments, a.batch_id = some 0)
    {k : Nat} (hz : ZoneSplit s.assessments k) :
    (∀ hk : k < s.assessments.length,
      firstPendingInBatch s 0 = some s.assessments[k]) ∧
      (s.assessments.length ≤ k → firstPendingInBatch s 0 = none) := by
  constructor
  · intro hk
    unfold firstPendingInBatch
    apply find?_eq_getElem _ _ k hk
    · simp only [decide_eq_true_eq]
      exact ⟨hb _ (List.getElem_mem hk), (hz k hk).2 (le_refl k)⟩
    · intro j hj hjk
      have hterm := (hz j hj).1 hjk
      rw [decide_eq_false_iff_not]
      rintro ⟨h1, h2⟩
      rw [h2] at hterm
      simp [TaskStatus.isTerminal] at hterm
  · intro hk
    unfold firstPendingInBatch
    rw [List.find?_eq_none]
    intro a ha
    obtain ⟨j, hj, hja⟩ := List.mem_iff_getElem.mp ha
    have hterm := (hz j hj).1 (by omega)
    rw [hja] at hterm
    rw [decide_eq_true_eq]
    rintro ⟨h1, h2⟩
    rw [h2] at hterm
    simp [TaskStatus.isTerminal] at hterm

/-- Terminal commit at a live task's job, task-table removal, then the
batch hook: the batch invariant is preserved, the earliest pending row
(if any) ending up `running`. -/
lemma batchInv_finish {s : ServiceState} (h : BatchInv s) {id : Nat}
    (hid : id ∈ s.running_tasks) (f : Assessment → Assessment) (c : Nat)
    (hfid : ∀ a, (f a).id = a.id)
    (hfbatch : ∀ a, (f a).batch_id = a.batch_id)
    (hfterm : ∀ a, (f a).status.isTerminal = true) :
    BatchInv (trigger_next_batch_task
      { updateAssessment s id f with
        running_tasks := s.running_tasks.filter (fun t => t ≠ id), clock := c } 0) := by
  obtain ⟨k, hk, hkid, hkrun, hother, hzones, halltasks⟩ := batch_running_unique h hid
  have hInv1 : SvcInv { updateAssessment s id f with
      running_tasks := s.running_tasks.filter (fun t => t ≠ id), clock := c } :=
    inv_finishRow h.base id c f hfid (fun a => isTerminal_ne_running (hfterm a))
  have hbatch1 : ∀ a ∈ ({ updateAssessment s id f with
      running_tasks := s.running_tasks.filter (fun t => t ≠ id),
      clock := c } : ServiceState).assessments, a.batch_id = some 0 := by
    intro a ha
    rcases List.mem_map.mp ha with ⟨r, hr, hra⟩
    subst hra
    by_cases hc2 : r.id = id
    · rw [if_pos hc2, hfbatch]
      exact h.batch r hr
    · rw [if_neg hc2]
      exact h.batch r hr
  have htasks1 : ({ updateAssessment s id f with
      running_tasks := s.running_tasks.filter (fun t => t ≠ id),
      clock := c } : ServiceState).running_tasks = [] := by
    show s.running_tasks.filter (fun t => t ≠ id) = []
    rw [List.filter_eq_nil_iff]
    intro t ht
    simp [halltasks t ht]
  have hzone1 : ZoneSplit (s.assessments.map
      (fun r => if r.id = id then f r else r)) (k + 1) := by
    apply zoneSplit_update hk
    · rw [if_pos hkid]
      exact hfterm _
    · intro j hj hne
      rw [if_neg ((hother j hj hne).1)]
    · exact hzones
  have hfp := firstPending_of_zoneSplit hbatch1 hzone1
  by_cases hcase : k + 1 < (s.assessments.map
      (fun r => if r.id = id then f r else r)).length
  · have hfps := hfp.1 hcase
    have hpend : (s.assessments.map
        (fun r => if r.id = id then f r else r))[k + 1].status = .pending :=
      (hzone1 (k + 1) hcase).2 (le_refl _)
    have hmem1 : (s.assessments.map
        (fun r => if r.id = id then f r else r))[k + 1] ∈
        ({ updateAssessment s id f with
          running_tasks := s.running_tasks.filter (fun t => t ≠ id),
          clock := c } : ServiceState).assessments := List.getElem_mem hcase
    have hfind1 := findAssessment_of_mem hInv1 hmem1
    have hok : start_assessment
        { updateAssessment s id f with
          running_tasks := s.running_tasks.filter (fun t => t ≠ id), clock := c }
        ((s.assessments.map (fun r => if r.id = id then f r else r))[k + 1]).id =
        .ok { updateAssessment
            { updateAssessment s id f with
              running_tasks := s.running_tasks.filter (fun t => t ≠ id), clock := c }
            ((s.assessments.map (fun r => if r.id = id then f r else r))[k + 1]).id
            (fun r => { r with status := .running, started_at := some c }) with
          running_tasks := s.running_tasks.filter (fun t => t ≠ id) ++
            [((s.assessments.map (fun r => if r.id = id then f r else r))[k + 1]).id]
          clock := c + 1 } := by
      unfold start_assessment
      rw [if_neg (by
        rw [htasks1]
        show ¬ (s.max_concurrent ≤ 0)
        have := h.cap1
        omega), hfind1]
      dsimp only
      rw [if_neg (by rw [hpend]; simp)]
    rw [trigger_starts_first hfps hok]
    refine ⟨inv_start hInv1 hok, ?_, ?_, h.cap1⟩
    · intro a ha
      rcases List.mem_map.mp ha with ⟨r, hr, hra⟩
      subst hra
      by_cases hc2 : r.id = ((s.assessments.map
          (fun x => if x.id = id then f x else x))[k + 1]).id
      · rw [if_pos hc2]
        exact hbatch1 r hr
      · rw [if_neg hc2]
        exact hbatch1 r hr
    · have hsort1 : (s.assessments.map
          (fun r => if r.id = id then f r else r)).Pairwise
            (fun x y => x.id < y.id) := hInv1.ids_sorted
      show BatchShape ((s.assessments.map
        (fun r => if r.id = id then f r else r)).map _)
      apply shape_start_update hcase
      · rw [if_pos rfl]
      · intro j hj hne
        rw [if_neg (ids_pos_ne hsort1 hj hcase hne)]
      · exact hzone1
  · have hlenm : (s.assessments.map
        (fun r => if r.id = id then f r else r)).length = s.assessments.length :=
      List.length_map _ _
    have hfpn := hfp.2 (by
      show (s.assessments.map (fun r => if r.id = id then f r else r)).length ≤ k + 1
      omega)
    rw [trigger_no_pending hfpn]
    refine ⟨hInv1, hbatch1, ?_, h.cap1⟩
    show BatchShape (s.assessments.map (fun r => if r.id = id then f r else r))
    exact zoneSplit_shape (by rw [hlenm]; omega) hzone1

/-- Progress commits do not disturb the batch invariant. -/
lemma batchInv_progress {s : ServiceState} (h : BatchInv s) (id : Nat) (cf : Int)
    (p : ℚ) : BatchInv (task_progress_step s id cf p) := by
  refine ⟨inv_progress h.base id cf p, ?_, ?_, h.cap1⟩
  · intro a ha
    rcases List.mem_map.mp ha with ⟨r, hr, hra⟩
    subst hra
    by_cases hc : r.id = id
    · rw [if_pos hc]
      exact h.batch r hr
    · rw [if_neg hc]
      exact h.batch r hr
  · show BatchShape (s.assessments.map
      (fun r => if r.id = id then applyProgressRow r cf p else r))
    apply batchShape_map ?_ h.shape
    intro a
    by_cases hc : a.id = id
    · rw [if_pos hc]
      rfl
    · rw [if_neg hc]

/-- Every driving-task step preserves the batch invariant. -/
lemma batchInv_drive {s s2 : ServiceState} (h : BatchInv s) (hs : DriveStep s s2) :
    BatchInv s2 := by
  cases hs with
  | taskProgress id cf p hid => exact batchInv_progress h id cf p
  | taskComplete id r path hid =>
    obtain ⟨a, ha, haid⟩ := h.base.tex id hid
    have hfa : findAssessment s id = some a := by
      rw [← haid]
      exact findAssessment_of_mem h.base ha
    show BatchInv (task_complete_step s id r path)
    unfold task_complete_step
    rw [hfa]
    have hab : (some a).bind (fun a => a.batch_id) = some 0 := by
      show a.batch_id = some 0
      exact h.batch a ha
    rw [hab]
    exact batchInv_finish h hid (fun a => applyCompleteRow a r path s.clock)
      (s.clock + 1) (fun a => rfl) (fun a => rfl) (fun a => rfl)
  | taskFail id msg hid =>
    obtain ⟨a, ha, haid⟩ := h.base.tex id hid
    have hfa : findAssessment s id = some a := by
      rw [← haid]
      exact findAssessment_of_mem h.base ha
    show BatchInv (task_fail_step s id msg)
    unfold task_fail_step
    rw [hfa]
    have hab : (some a).bind (fun a => a.batch_id) = some 0 := by
      show a.batch_id = some 0
      exact h.batch a ha
    rw [hab]
    exact batchInv_finish h hid (fun a => applyFailRow a msg)
      s.clock (fun a => rfl) (fun a => rfl) (fun a => rfl)

/-- The freshly created batch satisfies the invariant, with every job
pending. -/
lemma batchInv_init (n cap : Nat) (tf : Int) (hcap : 1 ≤ cap) :
    BatchInv (batchInit n cap tf) ∧ ZoneSplit (batchInit n cap tf).assessments 0 := by
  have hz : ZoneSplit (batchInit n cap tf).assessments 0 := by
    intro i hi
    refine ⟨fun h0 => by omega, fun _ => ?_⟩
    simp [batchInit]
  refine ⟨⟨?_, ?_, zoneSplit_shape (by omega) hz, hcap⟩, hz⟩
  · constructor
    · show ((List.range n).map _).Pairwise _
      refine List.pairwise_map.mpr (List.Pairwise.imp ?_ (List.pairwise_lt_range n))
      intro i j hij
      show i + 1 < j + 1
      omega
    · intro a ha
      rcases List.mem_map.mp ha with ⟨i, hi, hia⟩
      subst hia
      show i + 1 < n + 1
      have := List.mem_range.mp hi
      omega
    · intro a ha
      rcases List.mem_map.mp ha with ⟨i, hi, hia⟩
      subst hia
      constructor
      · intro hst
        simp at hst
      · intro hmem
        simp [batchInit] at hmem
    · intro i hi
      simp [batchInit] at hi
    · show List.Nodup []
      exact List.nodup_nil
    · show 0 ≤ cap
      omega
  · intro a ha
    rcases List.mem_map.mp ha with ⟨i, hi, hia⟩
    subst hia
    rfl

/-- `start_batch_assessment` on a fully zone-split batch-0 state
preserves the invariant (starting the boundary row if one is pending). -/
lemma batchInv_startBatch {s s1 : ServiceState} (h : BatchInv s) {k : Nat}
    (hz : ZoneSplit s.assessments k)
    (hok : start_batch_assessment s 0 = .ok s1) : BatchInv s1 := by
  unfold start_batch_assessment at hok
  have hfp := firstPending_of_zoneSplit h.batch hz
  by_cases hc : k < s.assessments.length
  · rw [hfp.1 hc] at hok
    dsimp only at hok
    rcases start_assessment_ok hok with ⟨a, hlt, hfind, hnr, rfl⟩
    refine ⟨inv_start h.base hok, ?_, ?_, h.cap1⟩
    · intro x hx
      rcases List.mem_map.mp hx with ⟨r, hr, hrx⟩
      subst hrx
      by_cases hc2 : r.id = s.assessments[k].id
      · rw [if_pos hc2]
        exact h.batch r hr
      · rw [if_neg hc2]
        exact h.batch r hr
    · show BatchShape (s.assessments.map _)
      apply shape_start_update hc
      · rw [if_pos rfl]
      · intro j hj hne
        rw [if_neg (ids_pos_ne h.base.ids_sorted hj hc hne)]
      · exact hz
  · rw [hfp.2 (by omega)] at hok
    dsimp only at hok
    rw [Except.ok.injEq] at hok
    subst hok
    exact h

/-- The batch invariant holds throughout a driven run. -/
lemma batchInv_reach {s1 s : ServiceState} (h : BatchInv s1)
    (hr : Relation.ReflTransGen DriveStep s1 s) : BatchInv s := by
  induction hr with
  | refl => exact h
  | tail h1 h2 ih => exact batchInv_drive ih h2

/-- At most one element satisfies a predicate whose witnesses all share
one position. -/
lemma countP_le_one_of_unique {α : Type} (p : α → Bool) (l : List α)
    (h : ∀ (i j : Nat) (hi : i < l.length) (hj : j < l.length),
      p l[i] = true → p l[j] = true → i = j) :
    l.countP p ≤ 1 := by
  induction l with
  | nil => simp
  | cons a t ih =>
    rw [List.countP_cons]
    by_cases hpa : p a = true
    · have htz : t.countP p = 0 := by
        rw [List.countP_eq_zero]
        intro x hx hpx
        obtain ⟨j, hj, hjx⟩ := List.mem_iff_getElem.mp hx
        have : 0 = j + 1 := h 0 (j + 1) (by simp) (by simpa using hj)
          (by simpa using hpa) (by simpa [hjx] using hpx)
        omega
      rw [htz, hpa]
      simp
    · have hpa2 : p a = false := by
        cases hp2 : p a
        · rfl
        · exact absurd hp2 hpa
      rw [hpa2]
      have := ih ?_
      · simpa using this
      · intro i j hi hj hpi hpj
        have := h (i + 1) (j + 1) (by simpa using hi) (by simpa using hj)
          (by simpa using hpi) (by simpa using hpj)
        omega

/-- C7: in a batch run — the batch started once, then driven only by
its own tasks' progress/terminal events — at most one job of the batch
is ever `running`, and whenever a later-created job has left `pending`
every earlier-created job is already terminal (jobs run in creation
order, the next starting only after the previous ended).  Moreover the
hook itself is a no-op when no pending job remains; on a terminal
transition it replays exactly one successful `start` on the job
`firstPendingInBatch` returns, leaving every other row untouched; and
with id-sorted rows that job is the pending batch member of least id
(the earliest created). -/
theorem c7_batch_sequential :
    (∀ (n cap : Nat) (tf : Int) (s1 s : ServiceState),
      1 ≤ cap →
      start_batch_assessment (batchInit n cap tf) 0 = .ok s1 →
      Relation.ReflTransGen DriveStep s1 s →
      s.assessments.countP (fun a => decide (a.status = .running)) ≤ 1 ∧
        ∀ (i j : Nat) (hi : i < s.assessments.length)
          (hj : j < s.assessments.length),
          i < j → s.assessments[j].status ≠ .pending →
          (s.assessments[i].status).isTerminal = true) ∧
      (∀ (s : ServiceState) (b : Nat),
        firstPendingInBatch s b = none → trigger_next_batch_task s b = s) ∧
      (∀ (s s2 : ServiceState) (b : Nat) (a : Assessment),
        firstPendingInBatch s b = some a → start_assessment s a.id = .ok s2 →
        trigger_next_batch_task s b = s2 ∧
          ∀ id2, id2 ≠ a.id → findAssessment s2 id2 = findAssessment s id2) ∧
      (∀ (s : ServiceState) (b : Nat) (a : Assessment),
        s.assessments.Pairwise (fun x y => x.id < y.id) →
        firstPendingInBatch s b = some a →
        a.batch_id = some b ∧ a.status = .pending ∧
          ∀ a2 ∈ s.assessments, a2.batch_id = some b → a2.status = .pending →
            a.id ≤ a2.id) := by
  refine ⟨?_, fun s b h => trigger_no_pending h, ?_, ?_⟩
  · intro n cap tf s1 s hcap hok hr
    have h0 := batchInv_init n cap tf hcap
    have h1 := batchInv_startBatch h0.1 h0.2 hok
    have hs := batchInv_reach h1 hr
    obtain ⟨k, hk, hz⟩ := hs.shape
    constructor
    · apply countP_le_one_of_unique
      intro i j hi hj hpi hpj
      have hi2 : s.assessments[i].status = .running := by simpa using hpi
      have hj2 : s.assessments[j].status = .running := by simpa using hpj
      have hik : i = k := by
        rcases Nat.lt_trichotomy i k with hlt | heq | hgt
        · exact absurd hi2 (isTerminal_ne_running ((hz i hi).1 hlt))
        · exact heq
        · have hp := (hz i hi).2.2 hgt
          rw [hi2] at hp
          exact absurd hp (by decide)
      have hjk : j = k := by
        rcases Nat.lt_trichotomy j k with hlt | heq | hgt
        · exact absurd hj2 (isTerminal_ne_running ((hz j hj).1 hlt))
        · exact heq
        · have hp := (hz j hj).2.2 hgt
          rw [hj2] at hp
          exact absurd hp (by decide)
      omega
    · intro i j hi hj hij hjnp
      have hjk : j ≤ k := by
        by_contra hgt
        exact hjnp ((hz j hj).2.2 (by omega))
      exact (hz i hi).1 (by omega)
  · intro s s2 b a hfp hok
    exact ⟨trigger_starts_first hfp hok, start_changes_only hok⟩
  · intro s b a hsort hfp
    have hp := List.find?_some hfp
    simp only [decide_eq_true_eq] at hp
    refine ⟨hp.1, hp.2, ?_⟩
    intro a2 ha2 hb2 hp2
    exact find?_min_id hsort hfp a2 ha2 (by simp [hb2, hp2])

/-- C7, witness: a concrete batch of two jobs with cap 1 — after the
batch is started and job 1 completes, the statuses read `completed,
running`: the hook auto-started job 2 and only one job ran at a time. -/
theorem c7_witness :
    ((1 : Nat) ≤ 1 ∧
        start_batch_assessment (batchInit 2 1 5) 0 = .ok c7s1 ∧
        Relation.ReflTransGen DriveStep c7s1 c7s2) ∧
      (c7s2.assessments.countP (fun a => decide (a.status = .running)) ≤ 1 ∧
        ∀ (i j : Nat) (hi : i < c7s2.assessments.length)
          (hj : j < c7s2.assessments.length),
          i < j → c7s2.assessments[j].status ≠ .pending →
          (c7s2.assessments[i].status).isTerminal = true) ∧
      c7s2.assessments.map (fun a => a.status) = [.completed, .running] := by
  have hok : start_batch_assessment (batchInit 2 1 5) 0 = .ok c7s1 := rfl
  have hstep : DriveStep c7s1 c7s2 :=
    DriveStep.taskComplete c7s1 1 c1Result 3 (by decide)
  have hr : Relation.ReflTransGen DriveStep c7s1 c7s2 :=
    Relation.ReflTransGen.tail Relation.ReflTransGen.refl hstep
  exact ⟨⟨le_refl 1, hok, hr⟩,
    c7_batch_sequential.1 2 1 5 c7s1 c7s2 (le_refl 1) hok hr, by decide⟩

/-! ## Lemmas about the adapter progress stream -/

lemma adapterEventsGo_cons (tf : Int) (l : Chars) (ls : List Chars) (last : Int) :
    adapterEventsGo tf (l :: ls) last =
      match parseFrameLine l with
      | some cf =>
        if cf ≠ last then
          { current_frame := cf, total_frames := tf,
            progress := pyMin (rawProgress tf cf) 100 } :: adapterEventsGo tf ls cf
        else adapterEventsGo tf ls last
      | none => adapterEventsGo tf ls last := rfl

/-- Every yielded event's fields: the progress is the clamped percentage
of its own frame counter, and `total_frames` is passed through. -/
lemma adapterEventsGo_progress_form (tf : Int) (lines : List Chars) :
    ∀ last : Int, ∀ e ∈ adapterEventsGo tf lines last,
      e.progress = pyMin (rawProgress tf e.current_frame) 100 ∧ e.total_frames = tf := by
  induction lines with
  | nil => intro last e he; simp [adapterEventsGo] at he
  | cons l ls ih =>
    intro last e he
    rw [adapterEventsGo_cons] at he
    rcases hp : parseFrameLine l with _ | cf
    · rw [hp] at he
      dsimp only at he
      exact ih last e he
    · rw [hp] at he
      dsimp only at he
      by_cases hne : cf ≠ last
      · rw [if_pos hne] at he
        rcases List.mem_cons.mp he with h | h
        · subst h; exact ⟨rfl, rfl⟩
        · exact ih cf e h
      · rw [if_neg hne] at he
        exact ih last e he

/-- The raw percentage is monotone in the frame counter. -/
lemma rawProgress_mono (tf : Int) {a b : Int} (h : a ≤ b) :
    rawProgress tf a ≤ rawProgress tf b := by
  unfold rawProgress
  split
  · next htf =>
    have htf' : (0 : ℚ) < (tf : ℚ) := by exact_mod_cast htf
    have hab : (a : ℚ) ≤ (b : ℚ) := by exact_mod_cast h
    have h1 : (a : ℚ) / (tf : ℚ) ≤ (b : ℚ) / (tf : ℚ) := by gcongr
    exact mul_le_mul_of_nonneg_right h1 (by norm_num)
  · exact le_rfl

lemma pyMin_le_right (a b : ℚ) : pyMin a b ≤ b := by
  unfold pyMin
  split
  · assumption
  · exact le_rfl

lemma pyMin_mono_left {a c : ℚ} (b : ℚ) (h : a ≤ c) : pyMin a b ≤ pyMin c b := by
  unfold pyMin
  split <;> split <;> linarith

/-- If the parsed frame counters of the input lines are non-decreasing
and each is at least `last`, the emitted frame counters strictly
increase and all exceed `last` when first emitted. -/
lemma adapterEventsGo_strict (tf : Int) (lines : List Chars) :
    ∀ last : Int,
      (lines.filterMap parseFrameLine).Pairwise (· ≤ ·) →
      (∀ cf ∈ lines.filterMap parseFrameLine, last ≤ cf) →
      ((adapterEventsGo tf lines last).map (fun e => e.current_frame)).Pairwise (· < ·) ∧
        (∀ e ∈ adapterEventsGo tf lines last, last < e.current_frame) := by
  induction lines with
  | nil =>
    intro last _ _
    exact ⟨by simp [adapterEventsGo], by intro e he; simp [adapterEventsGo] at he⟩
  | cons l ls ih =>
    intro last hpw hge
    rcases hp : parseFrameLine l with _ | cf
    · have hfm : (l :: ls).filterMap parseFrameLine = ls.filterMap parseFrameLine := by
        simp [List.filterMap_cons, hp]
      rw [hfm] at hpw hge
      have hrec := ih last hpw hge
      rw [adapterEventsGo_cons, hp]
      dsimp only
      exact hrec
    · have hfm : (l :: ls).filterMap parseFrameLine = cf :: ls.filterMap parseFrameLine := by
        simp [List.filterMap_cons, hp]
      rw [hfm] at hpw hge
      have hcf_ge : last ≤ cf := hge cf (List.mem_cons_self _ _)
      have hcf_le : ∀ x ∈ ls.filterMap parseFrameLine, cf ≤ x :=
        (List.pairwise_cons.mp hpw).1
      have hpw' : (ls.filterMap parseFrameLine).Pairwise (· ≤ ·) :=
        (List.pairwise_cons.mp hpw).2
      rw [adapterEventsGo_cons, hp]
      dsimp only
      by_cases hne : cf ≠ last
      · rw [if_pos hne]
        have hrec := ih cf hpw' hcf_le
        constructor
        · rw [List.map_cons, List.pairwise_cons]
          refine ⟨?_, hrec.1⟩
          intro x hx
          rcases List.mem_map.mp hx with ⟨e, he, hex⟩
          have := hrec.2 e he
          show cf < x
          omega
        · intro e he
          rcases List.mem_cons.mp he with h | h
          · subst h
            exact lt_of_le_of_ne hcf_ge (Ne.symm hne)
          · have := hrec.2 e h
            omega
      · rw [if_neg hne]
        push_neg at hne
        subst hne
        exact ih cf hpw' hcf_le

/-- C4, counterexample: the adapter deduplicates with `!=`, not with
`>`.  On tool output whose frame counter moves backwards
(`frame=5` then `frame=3`) it emits a second event whose frame counter
does not advance past the last-seen value, and the yielded (hence
persisted) progress sequence 50, 30 is decreasing. -/
theorem c4_counterexample :
    adapterEvents 10 ["frame=5".toList, "frame=3".toList] =
        [{ current_frame := 5, total_frames := 10,
           progress := pyMin (rawProgress 10 5) 100 },
         { current_frame := 3, total_frames := 10,
           progress := pyMin (rawProgress 10 3) 100 }] ∧
      pyMin (rawProgress 10 5) 100 = 50 ∧
      pyMin (rawProgress 10 3) 100 = 30 ∧
      ¬ ((adapterEvents 10 ["frame=5".toList, "frame=3".toList]).map
          (fun e => e.progress)).Pairwise (· ≤ ·) := by
  have h50 : pyMin (rawProgress 10 5) 100 = 50 := by
    norm_num [pyMin, rawProgress]
  have h30 : pyMin (rawProgress 10 3) 100 = 30 := by
    norm_num [pyMin, rawProgress]
  have hev : adapterEvents 10 ["frame=5".toList, "frame=3".toList] =
      [{ current_frame := 5, total_frames := 10,
         progress := pyMin (rawProgress 10 5) 100 },
       { current_frame := 3, total_frames := 10,
         progress := pyMin (rawProgress 10 3) 100 }] := rfl
  refine ⟨hev, h50, h30, ?_⟩
  intro h
  rw [hev] at h
  simp only [List.map_cons, List.map_nil] at h
  have := (List.pairwise_cons.mp h).1 _ (List.mem_cons_self _ _)
  rw [h50, h30] at this
  norm_num at this

/-- C4, amended: provided the frame counters parsed from the tool's
progress lines are non-decreasing and non-negative (ffmpeg's cumulative
`frame=` counter is), an event is emitted exactly when the counter
strictly advances past the last-seen value (emitted counters strictly
increase), the yielded — hence persisted — progress sequence is
non-decreasing, and the completion write sets persisted progress to
exactly 100. -/
theorem c4_monotone_progress (tf : Int) (lines : List Chars)
    (hmono : (lines.filterMap parseFrameLine).Pairwise (· ≤ ·))
    (hpos : ∀ cf ∈ lines.filterMap parseFrameLine, 0 ≤ cf) :
    ((adapterEvents tf lines).map (fun e => e.current_frame)).Pairwise (· < ·) ∧
      ((adapterEvents tf lines).map (fun e => e.progress)).Pairwise (· ≤ ·) ∧
      (∀ (a : Assessment) (r : QualityResult) (path t : Nat),
        (applyCompleteRow a r path t).progress = 100 ∧
          (applyCompleteRow a r path t).status = .completed) := by
  have hge : ∀ cf ∈ lines.filterMap parseFrameLine, (-1 : Int) ≤ cf := by
    intro cf h
    have := hpos cf h
    omega
  have hs := adapterEventsGo_strict tf lines (-1) hmono hge
  refine ⟨hs.1, ?_, fun a r path t => ⟨rfl, rfl⟩⟩
  have h1 := List.pairwise_map.mp hs.1
  apply List.pairwise_map.mpr
  refine h1.imp_of_mem ?_
  intro a b ha hb hab
  have pa := (adapterEventsGo_progress_form tf lines (-1) a ha).1
  have pb := (adapterEventsGo_progress_form tf lines (-1) b hb).1
  show a.progress ≤ b.progress
  rw [pa, pb]
  exact pyMin_mono_left 100 (rawProgress_mono tf (le_of_lt hab))

/-- C4, witness for the amended theorem at a concrete monotone input. -/
theorem c4_witness :
    (((["frame=1".toList, "x".toList, "frame=1".toList,
          "frame=4".toList].filterMap parseFrameLine)).Pairwise (· ≤ ·) ∧
        (∀ cf ∈ ["frame=1".toList, "x".toList, "frame=1".toList,
          "frame=4".toList].filterMap parseFrameLine, 0 ≤ cf)) ∧
      ((adapterEvents 8 ["frame=1".toList, "x".toList, "frame=1".toList,
          "frame=4".toList]).map (fun e => e.current_frame)).Pairwise (· < ·) ∧
      ((adapterEvents 8 ["frame=1".toList, "x".toList, "frame=1".toList,
          "frame=4".toList]).map (fun e => e.progress)).Pairwise (· ≤ ·) ∧
      (∀ (a : Assessment) (r : QualityResult) (path t : Nat),
        (applyCompleteRow a r path t).progress = 100 ∧
          (applyCompleteRow a r path t).status = .completed) :=
  ⟨⟨by decide, by decide⟩,
    c4_monotone_progress 8 _ (by decide) (by decide)⟩

/-- C10: every progress event the quality-comparison generator yields
carries `progress = min(raw, 100) ≤ 100`; when the reference's probed
frame count is 0 every event reports progress 0 (the `total_frames > 0`
branch), so such a job's persisted progress stays 0 until the completion
write sets it to exactly 100. -/
theorem c10_progress_clamped (tf : Int) (lines : List Chars) :
    (∀ e ∈ adapterEvents tf lines, e.progress ≤ 100) ∧
      (tf = 0 → ∀ e ∈ adapterEvents tf lines, e.progress = 0) ∧
      (∀ (a : Assessment) (r : QualityResult) (path t : Nat),
        (applyCompleteRow a r path t).progress = 100) := by
  refine ⟨?_, ?_, fun a r path t => rfl⟩
  · intro e he
    have h := (adapterEventsGo_progress_form tf lines (-1) e he).1
    rw [h]
    exact pyMin_le_right _ _
  · intro htf e he
    have h := (adapterEventsGo_progress_form tf lines (-1) e he).1
    rw [h]
    subst htf
    have h0 : rawProgress 0 e.current_frame = 0 := by simp [rawProgress]
    rw [h0]
    norm_num [pyMin]

/-- C10, witness: a zero-frame-count reference yields only zero progress. -/
theorem c10_witness :
    ((0 : Int) = 0 ∧
      ∀ e ∈ adapterEvents 0 ["frame=3".toList, "frame=9".toList], e.progress = 0) :=
  ⟨rfl, (c10_progress_clamped 0 ["frame=3".toList, "frame=9".toList]).2.1 rfl⟩

end VQC
